import Mathlib

/-!
# Verification of the CmdParser command-line argument parsing library

This file gives a shallow embedding of `cmdparser.hpp` (namespace `cli`,
class `Parser`) and proves properties of the tokenization / resolution
algorithm, the value-conversion layer and the inspection API.

The embedding follows the C++ source closely:

* machine integers are modelled as `Int` with the `int` range checked
  explicitly where `std::stoi` would throw `out_of_range`;
* C++ exceptions become `Except` values;
* the mutable registry (`std::vector<CmdBase*> _commands`) becomes an
  explicit `List CmdBase` threaded through the tokenization state machine
  and the three resolution passes;
* writes to the diagnostic streams are recorded as a trace of `Event`s so
  that the ordering of the resolution passes is observable;
* the null-pointer dereference that `run` performs when
  `find_default()` returns `nullptr` at the cursor-reversion point is
  modelled as a distinguished `crash` outcome.
-/

namespace CmdParser

/-! ## Exceptions of the value conversion layer -/

/-- C++ exceptions thrown by the `Parser::parse` static overloads:
`std::bad_cast` (arity mismatch), `std::invalid_argument` and
`std::out_of_range` (from `std::stoi`), and `std::runtime_error`
(boolean parameter given arguments). -/
inductive ParseExn where
  | badCast
  | invalidArgument
  | outOfRange
  | runtimeError (msg : String)
  deriving Repr, DecidableEq

instance {ε α : Type} [DecidableEq ε] [DecidableEq α] : DecidableEq (Except ε α) := fun x y =>
  match x, y with
  | .ok a, .ok b =>
    if h : a = b then isTrue (by subst h; rfl)
    else isFalse (fun hh => h (by injection hh))
  | .error e, .error f =>
    if h : e = f then isTrue (by subst h; rfl)
    else isFalse (fun hh => h (by injection hh))
  | .ok _, .error _ => isFalse (fun hh => Except.noConfusion hh)
  | .error _, .ok _ => isFalse (fun hh => Except.noConfusion hh)

/-! ## Model of `std::stoi(str, 0, base)`

`std::stoi` forwards to `strtol`: skip leading whitespace, read an
optional sign, then determine the effective base (a `0x`/`0X` prefix is
consumed when the base is 16 or 0 and a hexadecimal digit follows; with
base 0 a remaining leading `0` selects octal, otherwise decimal), consume
the maximal run of digits of that base, and fail with
`std::invalid_argument` when no digit was consumed or with
`std::out_of_range` when the value does not fit in `int`. Trailing
characters are ignored. -/

/-- The whitespace characters of `isspace` in the C locale. -/
def isSpaceChar (c : Char) : Bool :=
  c = ' ' || c = '\t' || c = '\n' || c = '\x0b' || c = '\x0c' || c = '\r'

/-- Numeric value of a digit character, as `strtol` reads it
(`0`-`9`, `a`-`z`, `A`-`Z`). -/
def digitVal (c : Char) : Option Nat :=
  if '0' ≤ c ∧ c ≤ '9' then some (c.toNat - '0'.toNat)
  else if 'a' ≤ c ∧ c ≤ 'z' then some (c.toNat - 'a'.toNat + 10)
  else if 'A' ≤ c ∧ c ≤ 'Z' then some (c.toNat - 'A'.toNat + 10)
  else none

/-- Is `c` a digit of the given base? -/
def isBaseDigit (base : Nat) (c : Char) : Bool :=
  match digitVal c with
  | some d => d < base
  | none => false

/-- Does the character list start with a `0x`/`0X` prefix followed by a
hexadecimal digit (the condition under which `strtol` consumes the
prefix)? -/
def hexStart : List Char → Bool
  | c0 :: c1 :: c2 :: _ => c0 == '0' && (c1 == 'x' || c1 == 'X') && isBaseDigit 16 c2
  | _ => false

/-- Smallest value of the C++ `int` type (32-bit). -/
def intMin : Int := -(2 ^ 31)

/-- Largest value of the C++ `int` type (32-bit). -/
def intMax : Int := 2 ^ 31 - 1

/-- Sign handling of `strtol`: an optional `-` or `+` before the body. -/
def stoiSign (cs : List Char) : Int × List Char :=
  match cs with
  | [] => (1, [])
  | c :: rest =>
    if c == '-' then (-1, rest)
    else if c == '+' then (1, rest)
    else (1, c :: rest)

/-- Base detection of `strtol`: a consumed `0x`/`0X` prefix selects 16
(when the requested base is 16 or 0); with base 0 a remaining leading
`0` selects octal, anything else decimal. -/
def stoiBase (base : Nat) (cs : List Char) : Nat × List Char :=
  if (base == 16 || base == 0) && hexStart cs then (16, cs.drop 2)
  else if base = 0 then
    ((match cs with
      | [] => 10
      | c :: _ => if c == '0' then 8 else 10), cs)
  else (base, cs)

/-- Core of the `std::stoi` model, on a character list. -/
def stoiCore (cs : List Char) (base : Nat) : Except ParseExn Int :=
  let sr := stoiSign (cs.dropWhile isSpaceChar)
  let bb := stoiBase base sr.2
  let digits := bb.2.takeWhile (isBaseDigit bb.1)
  if digits = [] then .error .invalidArgument
  else
    let magnitude : Nat := digits.foldl (fun acc c => acc * bb.1 + ((digitVal c).getD 0)) 0
    let value : Int := sr.1 * magnitude
    if value < intMin ∨ intMax < value then .error .outOfRange
    else .ok value

/-- Model of `std::stoi(s, 0, base)`. -/
def stoi (s : String) (base : Nat) : Except ParseExn Int :=
  stoiCore s.data base

/-! ## Model of `std::to_string` for integers -/

/-- The character of a decimal digit. -/
def digitChar (d : Nat) : Char := Char.ofNat (48 + d)

/-- Little-endian decimal digits of `n`, with explicit fuel so that the
definition is structurally recursive (the fuel is always taken `≥ n`). -/
def toDigitsRev (fuel : Nat) (n : Nat) : List Nat :=
  match fuel with
  | 0 => []
  | fuel + 1 => if n = 0 then [] else n % 10 :: toDigitsRev fuel (n / 10)

/-- Decimal rendering of a natural number. -/
def natToString (n : Nat) : String :=
  if n = 0 then "0" else ⟨(toDigitsRev n n).reverse.map digitChar⟩

/-- Model of `std::to_string(int)`: sign followed by the decimal digits. -/
def intToString (n : Int) : String :=
  if n < 0 then "-" ++ natToString n.natAbs else natToString n.natAbs

/-! ## The `Parser::parse` static overloads (value conversion layer) -/

/-- `static int parse(const std::vector<std::string>&, const int&, int numberBase = 0)`:
exactly one element, converted by `std::stoi`. -/
def parseIntElems (elements : List String) (numberBase : Nat) : Except ParseExn Int :=
  match elements with
  | [e] => stoi e numberBase
  | _ => .error .badCast

/-- `static bool parse(const std::vector<std::string>&, const bool& defval)`:
exactly zero elements, producing the negation of the registered default. -/
def parseBoolElems (elements : List String) (defval : Bool) : Except ParseExn Bool :=
  if elements.length ≠ 0 then
    .error (.runtimeError "A boolean command line parameter cannot have any arguments.")
  else .ok (!defval)

/-- `static std::string parse(const std::vector<std::string>&, const std::string&)`:
exactly one element, returned unchanged. -/
def parseStringElems (elements : List String) : Except ParseExn String :=
  match elements with
  | [e] => .ok e
  | _ => .error .badCast

/-- `static std::vector<T> parse(...)` instantiated at `T = std::string`:
each element is converted by the scalar string rule on a one-element
buffer, in order, the first failure aborting the conversion. -/
def parseVecStringElems : List String → Except ParseExn (List String)
  | [] => .ok []
  | e :: rest =>
    match parseStringElems [e], parseVecStringElems rest with
    | .ok v, .ok vs => .ok (v :: vs)
    | .error ex, _ => .error ex
    | .ok _, .error ex => .error ex

/-! ## Typed values

One constructor per C++ template instantiation the claims exercise:
`int`, `bool`, `std::string`, `cli::NumericalBase<int, base>` and
`std::vector<std::string>`. A `NumericalBase` value carries its base
field, which both constructors of the C++ class set to the template
parameter. -/

inductive Value where
  | vInt (n : Int)
  | vBool (b : Bool)
  | vStr (s : String)
  | vNumBase (n : Int) (base : Nat)
  | vVecStr (xs : List String)
  deriving Repr, DecidableEq

/-- The declared C++ type of a stored value, used to model the
`dynamic_cast<CmdArgument<T>*>` check inside `Parser::get<T>`. -/
inductive CmdType where
  | tInt
  | tBool
  | tStr
  | tNumBase (base : Nat)
  | tVecStr
  deriving Repr, DecidableEq

/-- The declared type of a value. -/
def Value.typeOf : Value → CmdType
  | .vInt _ => .tInt
  | .vBool _ => .tBool
  | .vStr _ => .tStr
  | .vNumBase _ base => .tNumBase base
  | .vVecStr _ => .tVecStr

/-- `ArgumentCountChecker<T>::Variadic`: true exactly for `std::vector`
instantiations. -/
def Value.isVariadic : Value → Bool
  | .vVecStr _ => true
  | _ => false

/-- Dispatch of `value = Parser::parse(arguments, value)` over the stored
value's declared type (C++ overload resolution). For
`NumericalBase<T, base>` the overload passes `wrapper.base` as the
number base, and the converted number is wrapped again with the same
base. -/
def convertValue (elements : List String) : Value → Except ParseExn Value
  | .vInt _ => (parseIntElems elements 0).map Value.vInt
  | .vBool b => (parseBoolElems elements b).map Value.vBool
  | .vStr _ => (parseStringElems elements).map Value.vStr
  | .vNumBase _ base => (parseIntElems elements base).map (fun n => Value.vNumBase n base)
  | .vVecStr _ => (parseVecStringElems elements).map Value.vVecStr

/-! ## The `Parser::stringify` overloads -/

/-- `stringify` for `int`: `std::to_string(value)`. -/
def stringifyInt (n : Int) : String := intToString n

/-- `stringify` for `std::string`: the string itself. -/
def stringifyStr (s : String) : String := s

/-- `stringify` for `NumericalBase<T, base>`: `std::to_string(wrapper.value)`. -/
def stringifyNumBase (n : Int) : String := intToString n

/-! ## Parameter descriptors

`CmdBase` mirrors the C++ abstract base class; the two concrete
subclasses `CmdArgument<T>` (a plain typed value with an optional
validation function) and `CmdFunction<T>` (a user callback) become the
two constructors of `CmdKind`. A callback receives the collected
arguments and either returns a value or throws (modelled by `Except`,
the error string standing for `e.what()`). -/

inductive CmdKind where
  | argument (value : Value) (valFun : Option (Value → Bool))
  | function (callback : List String → Except String Value) (value : Option Value)

structure CmdBase where
  name : String
  command : String
  alternative : String
  description : String
  required : Bool
  handled : Bool
  dominant : Bool
  variadic : Bool
  arguments : List String
  kind : CmdKind

/-- The `CmdBase` constructor: `command` is `"-" + name` when `name` is
nonempty, `alternative` is `"--" + alternative` when nonempty; `handled`
starts false and `arguments` empty. -/
def makeCommand (name alternative description : String)
    (required dominant variadic : Bool) (kind : CmdKind) : CmdBase :=
  { name := name
    command := if name.length > 0 then "-" ++ name else ""
    alternative := if alternative.length > 0 then "--" ++ alternative else ""
    description := description
    required := required
    handled := false
    dominant := dominant
    variadic := variadic
    arguments := []
    kind := kind }

/-- `CmdBase::is`: does the token equal the short or the long flag? -/
def CmdBase.is (c : CmdBase) (given : String) : Bool :=
  given = c.command || given = c.alternative

/-- `CmdArgument<T>::parse`: for a non-required parameter with an empty
argument bucket, succeed immediately keeping the current value ("use
default"); otherwise run the value conversion, catching its exception as
a failure that leaves the value unchanged. -/
def cmdArgumentParse (required : Bool) (arguments : List String) (value : Value) :
    Bool × Value :=
  if !required && arguments.isEmpty then (true, value)
  else
    match convertValue arguments value with
    | .ok v => (true, v)
    | .error _ => (false, value)

/-- `CmdFunction<T>::parse`: invoke the callback on the collected
arguments; store its result and report success whenever it returns
normally, and report failure (keeping the old value) when it throws. -/
def cmdFunctionParse (callback : List String → Except String Value)
    (arguments : List String) (value : Option Value) : Bool × Option Value :=
  match callback arguments with
  | .ok v => (true, some v)
  | .error _ => (false, value)

/-- Virtual `parse` dispatch over the two descriptor variants. -/
def CmdBase.parse (c : CmdBase) : Bool × CmdBase :=
  match c.kind with
  | .argument v vf =>
    let r := cmdArgumentParse c.required c.arguments v
    (r.1, { c with kind := .argument r.2 vf })
  | .function cb v =>
    let r := cmdFunctionParse cb c.arguments v
    (r.1, { c with kind := .function cb r.2 })

/-- Virtual `validate` dispatch: `CmdArgument` runs the validation
function on the current value when one is registered, `CmdFunction`
always succeeds. -/
def CmdBase.validate (c : CmdBase) : Bool :=
  match c.kind with
  | .argument v (some f) => f v
  | .argument _ none => true
  | .function _ _ => true

/-- The typed value currently stored in a descriptor (the `value` member
of `CmdArgument<T>` respectively `CmdFunction<T>`). -/
def CmdBase.storedValue (c : CmdBase) : Option Value :=
  match c.kind with
  | .argument v _ => some v
  | .function _ v => v

/-! ## Registry and registration API -/

/-- `Parser::set_default<T>`: an unnamed `CmdArgument` whose `value` is
set to the default; variadic-ness is derived from the declared type. -/
def set_default (commands : List CmdBase) (is_required : Bool) (description : String)
    (defaultValue : Value) (vf : Option (Value → Bool)) : List CmdBase :=
  commands ++ [makeCommand "" "" description is_required false defaultValue.isVariadic
    (.argument defaultValue vf)]

/-- `Parser::set_required<T>`: a named required `CmdArgument`. The C++
code leaves `value` default-initialized; the model takes the initial
value (which fixes the declared type) as `typeWitness`. -/
def set_required (commands : List CmdBase) (name alternative description : String)
    (typeWitness : Value) (vf : Option (Value → Bool)) (dominant : Bool) : List CmdBase :=
  commands ++ [makeCommand name alternative description true dominant typeWitness.isVariadic
    (.argument typeWitness vf)]

/-- `Parser::set_optional<T>`: a named non-required `CmdArgument` whose
`value` is set to the default. -/
def set_optional (commands : List CmdBase) (name alternative : String)
    (defaultValue : Value) (description : String) (vf : Option (Value → Bool))
    (dominant : Bool) : List CmdBase :=
  commands ++ [makeCommand name alternative description false dominant defaultValue.isVariadic
    (.argument defaultValue vf)]

/-- `Parser::set_callback<T>`: a named non-required `CmdFunction`;
variadic-ness is derived from the callback's declared result type. -/
def set_callback (commands : List CmdBase) (name alternative : String)
    (callback : List String → Except String Value) (description : String)
    (dominant : Bool) (variadic : Bool) : List CmdBase :=
  commands ++ [makeCommand name alternative description false dominant variadic
    (.function callback none)]

/-- `Parser::enable_help`: registers the dominant `-h`/`--help` callback,
a `CmdFunction<bool>` that prints the usage text and returns `false`. -/
def enable_help (commands : List CmdBase) : List CmdBase :=
  set_callback commands "h" "help" (fun _ => .ok (.vBool false)) "" true false

/-! ## Registry lookups -/

/-- First index (from `start`) satisfying the predicate. -/
def findIdxFrom (p : α → Bool) : List α → Nat → Option Nat
  | [], _ => none
  | a :: rest, i => if p a then some i else findIdxFrom p rest (i + 1)

/-- `Parser::find`: index of the first descriptor whose short or long
flag equals the token. -/
def findCmdIdx (commands : List CmdBase) (tok : String) : Option Nat :=
  findIdxFrom (fun c => c.is tok) commands 0

/-- `Parser::find_default`: index of the first descriptor with an empty
name. -/
def findDefaultIdx (commands : List CmdBase) : Option Nat :=
  findIdxFrom (fun c => c.name = "") commands 0

/-- Update the element at index `i` (identity when out of range),
modelling mutation through a descriptor pointer. -/
def updateAt : List α → Nat → (α → α) → List α
  | [], _, _ => []
  | a :: rest, 0, f => f a :: rest
  | a :: rest, i + 1, f => a :: updateAt rest i f

/-- Set the `handled` flag of descriptor `i`. -/
def markHandled (commands : List CmdBase) (i : Nat) : List CmdBase :=
  updateAt commands i (fun c => { c with handled := true })

/-- Append a token to the argument bucket of descriptor `i`. -/
def pushArg (commands : List CmdBase) (i : Nat) (tok : String) : List CmdBase :=
  updateAt commands i (fun c => { c with arguments := c.arguments ++ [tok] })

/-! ## Diagnostics and call trace -/

/-- Observable events of one `run` call: the diagnostics written to the
error stream and the `parse`/`validate` invocations of the resolution
passes. -/
inductive Event where
  | invalidParameter (token : String)
  | tooManyArguments (idx : Nat) (token : String)
  | parseCalled (idx : Nat) (ok : Bool)
  | validateCalled (idx : Nat) (ok : Bool)
  | dominantFail (idx : Nat) (name : String)
  | missingRequired (idx : Nat) (name : String)
  | normalFail (idx : Nat) (name : String)
  deriving Repr, DecidableEq

/-! ## Stage 1: tokenization -/

/-- Tokenization state: the registry and the cursor (`current`), an index
into the registry or `none` for the C++ null pointer. -/
structure TokState where
  commands : List CmdBase
  current : Option Nat

/-- Result of tokenizing: continue with a new state, fail with a
diagnostic, or crash (the C++ code dereferences the null pointer
returned by `find_default()` after a non-variadic descriptor accepted
its single value in a registry without a default descriptor). -/
inductive TokResult where
  | next (st : TokState)
  | fail (ev : Event) (commands : List CmdBase)
  | crash (commands : List CmdBase)

/-- Is the token flag-shaped (`currArg.size() > 0 && currArg[0] == '-'`)? -/
def isFlagToken (tok : String) : Bool :=
  match tok.data with
  | c :: _ => c = '-'
  | [] => false

/-- One iteration of the tokenization loop in `Parser::run`, for the
token `tok`. -/
def tokenizeStep (st : TokState) (tok : String) : TokResult :=
  let isarg := isFlagToken tok
  let associated := if isarg then findCmdIdx st.commands tok else none
  match associated with
  | some j => .next { commands := markHandled st.commands j, current := some j }
  | none =>
    match st.current with
    | none => .fail (.invalidParameter tok) st.commands
    | some i =>
      match st.commands.get? i with
      | none => .crash st.commands  -- unreachable: the cursor always indexes the registry
      | some c =>
        if !c.variadic then
          if c.arguments.isEmpty then
            -- accept the single value, then revert the cursor to the
            -- default descriptor and mark it handled (a null `find_default`
            -- is dereferenced here by the C++ code)
            let cmds := pushArg st.commands i tok
            match findDefaultIdx cmds with
            | some d => .next { commands := markHandled cmds d, current := some d }
            | none => .crash cmds
          else if isarg then .fail (.invalidParameter tok) st.commands
          else .fail (.tooManyArguments i tok) st.commands
        else
          .next { commands := markHandled (pushArg st.commands i tok) i, current := st.current }

/-- The whole tokenization loop. -/
def tokenize (st : TokState) : List String → TokResult
  | [] => .next st
  | tok :: rest =>
    match tokenizeStep st tok with
    | .next st2 => tokenize st2 rest
    | r => r

/-! ## Stage 2: the three resolution passes -/

structure PassResult where
  commands : List CmdBase
  events : List Event
  success : Bool

/-- The shared loop shape of the dominant and the normal pass: for every
descriptor satisfying `pred`, call `parse` then (on success) `validate`;
the first failure emits `mkFail` and aborts. `i` is the index of the
list head within the full registry. -/
def passLoop (pred : CmdBase → Bool) (mkFail : Nat → String → Event) :
    List CmdBase → Nat → PassResult
  | [], _ => { commands := [], events := [], success := true }
  | c :: rest, i =>
    if pred c then
      let pr := c.parse
      if pr.1 then
        let ok2 := pr.2.validate
        if ok2 then
          let r := passLoop pred mkFail rest (i + 1)
          { commands := pr.2 :: r.commands
            events := .parseCalled i pr.1 :: .validateCalled i ok2 :: r.events
            success := r.success }
        else
          { commands := pr.2 :: rest
            events := [.parseCalled i pr.1, .validateCalled i ok2, mkFail i c.name]
            success := false }
      else
        { commands := pr.2 :: rest
          events := [.parseCalled i pr.1, mkFail i c.name]
          success := false }
    else
      let r := passLoop pred mkFail rest (i + 1)
      { commands := c :: r.commands, events := r.events, success := r.success }

/-- The dominant pass: every handled descriptor with `dominant`. -/
def dominantPass (commands : List CmdBase) : PassResult :=
  passLoop (fun c => c.handled && c.dominant) Event.dominantFail commands 0

/-- The normal pass: every handled non-dominant descriptor. -/
def normalPass (commands : List CmdBase) : PassResult :=
  passLoop (fun c => c.handled && !c.dominant) Event.normalFail commands 0

/-- The required-check pass: index and name of the first descriptor with
`required` and not `handled`, if any. -/
def requiredCheck (commands : List CmdBase) : Option (Nat × String) :=
  (findIdxFrom (fun c => c.required && !c.handled) commands 0).map
    (fun i => (i, ((commands.get? i).map CmdBase.name).getD ""))

/-! ## `Parser::run` -/

/-- Overall outcome of `run`: the returned boolean, or the crash caused
by the null-pointer dereference during tokenization. -/
inductive Outcome where
  | ok (success : Bool)
  | crash
  deriving Repr, DecidableEq

structure RunResult where
  outcome : Outcome
  events : List Event
  commands : List CmdBase

/-- `Parser::run(output, error)`: tokenize the raw argument vector
starting from the default descriptor as cursor (the loop body is skipped
entirely for an empty vector, which the fold reproduces), then the
dominant pass, the required check and the normal pass, each aborting the
call on its first failure. -/
def run (commands : List CmdBase) (arguments : List String) : RunResult :=
  match tokenize { commands := commands, current := findDefaultIdx commands } arguments with
  | .fail ev cmds => { outcome := .ok false, events := [ev], commands := cmds }
  | .crash cmds => { outcome := .crash, events := [], commands := cmds }
  | .next st =>
    let dom := dominantPass st.commands
    if dom.success then
      match requiredCheck dom.commands with
      | some r =>
        { outcome := .ok false
          events := dom.events ++ [.missingRequired r.1 r.2]
          commands := dom.commands }
      | none =>
        let norm := normalPass dom.commands
        { outcome := .ok norm.success
          events := dom.events ++ norm.events
          commands := norm.commands }
    else
      { outcome := .ok false, events := dom.events, commands := dom.commands }

/-! ## `Parser::get<T>` -/

/-- Errors of the inspection API: unknown name, or a
`dynamic_cast<CmdArgument<T>*>` that yields null (wrong declared type,
or a callback parameter). -/
inductive GetError where
  | notFound (name : String)
  | typeMismatch (name : String)
  deriving Repr, DecidableEq

/-- `Parser::get<T>(name)`: the first descriptor whose `name` matches is
taken; it must be a `CmdArgument` whose declared type is exactly `T`. -/
def getValue (commands : List CmdBase) (ty : CmdType) (name : String) :
    Except GetError Value :=
  match commands.find? (fun c => c.name = name) with
  | some c =>
    match c.kind with
    | .argument v _ => if v.typeOf = ty then .ok v else .error (.typeMismatch name)
    | .function _ _ => .error (.typeMismatch name)
  | none => .error (.notFound name)

/-- Observation helper: the stored value of descriptor `i`. -/
def valueAt (commands : List CmdBase) (i : Nat) : Option Value :=
  (commands.get? i).bind CmdBase.storedValue

/-- Observation helper: the `handled` flag of descriptor `i`. -/
def handledAt (commands : List CmdBase) (i : Nat) : Option Bool :=
  (commands.get? i).map CmdBase.handled

/-- Observation helper: the argument bucket of descriptor `i`. -/
def argsAt (commands : List CmdBase) (i : Nat) : Option (List String) :=
  (commands.get? i).map CmdBase.arguments

/-- Observation helper: the `required` flag of descriptor `i`. -/
def requiredAt (commands : List CmdBase) (i : Nat) : Option Bool :=
  (commands.get? i).map CmdBase.required

/-! ## Auxiliary predicates used in the theorem statements -/

/-- `c'` agrees with `c` on every field except possibly `handled` and
`arguments` — the only two fields tokenization mutates. -/
def OnlyTokMut (c c' : CmdBase) : Prop :=
  { c' with handled := c.handled, arguments := c.arguments } = c

/-- Token `tok` resolves to descriptor `i` during tokenization: it is
flag-shaped and descriptor `i` is the first whose short or long flag
equals it. -/
def FlagMatches (commands : List CmdBase) (tok : String) (i : Nat) : Prop :=
  isFlagToken tok = true ∧ findCmdIdx commands tok = some i

/-- Relation between a descriptor before and after any amount of
tokenization: only `handled` and `arguments` may change, tokens are only
appended to the bucket, and `handled` is never cleared. -/
def StepRel (c c' : CmdBase) : Prop :=
  OnlyTokMut c c' ∧ (∃ ex, c'.arguments = c.arguments ++ ex) ∧
    (c.handled = true → c'.handled = true)

/-- The cursor invariant: the cursor always points at the default
descriptor or at an already-handled descriptor. -/
def CursorOk (st : TokState) : Prop :=
  ∀ i, st.current = some i →
    findDefaultIdx st.commands = some i ∨
    ∃ c, st.commands.get? i = some c ∧ c.handled = true


/-! ## Concrete registries used by witnesses and counterexamples -/

/-- Registry: a required string parameter `-r` and a dominant optional
string parameter `-d`. -/
def regDomReq : List CmdBase :=
  set_optional (set_required [] "r" "req" "" (.vStr "") none false)
    "d" "dom" (.vStr "") "" none true

/-- Registry: a non-variadic string default parameter and a non-variadic
optional string parameter `-n`. -/
def regDefN : List CmdBase :=
  set_optional (set_default [] false "" (.vStr "") none) "n" "num" (.vStr "") "" none false

/-- Registry: a variadic (`std::vector<std::string>`) default parameter
and a non-variadic optional string parameter `-n`. -/
def regVarDefN : List CmdBase :=
  set_optional (set_default [] false "" (.vVecStr []) none) "n" "num" (.vStr "") "" none false

/-- Registry: a non-required boolean parameter `-f` with default
`false`. -/
def regBoolF : List CmdBase :=
  set_optional [] "f" "flag" (.vBool false) "" none false

/-- Registry: a required boolean default parameter (default `false`) and
a non-variadic optional string parameter `-n`. -/
def regReqDefN : List CmdBase :=
  set_optional (set_default [] true "" (.vBool false) none) "n" "num" (.vStr "") "" none false

/-- Registry: a single required string parameter `-r`. -/
def regReqOnly : List CmdBase :=
  set_required [] "r" "req" "" (.vStr "") none false

/-- Registry: a string default parameter and an optional
`NumericalBase<int, 16>` parameter `-x`. -/
def regHexX : List CmdBase :=
  set_optional (set_default [] false "" (.vStr "") none) "x" "hex" (.vNumBase 0 16) "" none false

/-- Registry: a single optional non-variadic integer parameter `-k` with
default `7`. -/
def regIntK : List CmdBase :=
  set_optional [] "k" "num" (.vInt 7) "" none false

/-- A callback descriptor whose callback returns the boolean value
`false` without throwing. -/
def cbFalseCmd : CmdBase :=
  makeCommand "c" "" "" false false false (.function (fun _ => .ok (.vBool false)) none)

/-- The registry of `regDefN` as it stands after tokenizing
`["-n", "v"]`. -/
def tokDefNv : List CmdBase :=
  markHandled (pushArg (markHandled regDefN 1) 1 "v") 0

/-- The `-n` descriptor of `regVarDefN` as registered. -/
def cmdN : CmdBase :=
  makeCommand "n" "num" "" false false false (.argument (.vStr "") none)

/-- The variadic default descriptor of `regVarDefN` as registered. -/
def cmdVD : CmdBase :=
  makeCommand "" "" "" false false true (.argument (.vVecStr []) none)

/-! ## Basic lemmas about the list helpers -/

theorem updateAt_length (l : List α) (i : Nat) (f : α → α) :
    (updateAt l i f).length = l.length := by
  induction l generalizing i with
  | nil => rfl
  | cons a rest ih =>
    cases i with
    | zero => rfl
    | succ i => simpa [updateAt] using ih i

theorem get?_updateAt_self (l : List α) (i : Nat) (f : α → α) :
    (updateAt l i f).get? i = (l.get? i).map f := by
  induction l generalizing i with
  | nil => cases i <;> rfl
  | cons a rest ih =>
    cases i with
    | zero => rfl
    | succ i => simpa [updateAt] using ih i

theorem get?_updateAt_ne (l : List α) (i j : Nat) (f : α → α) (h : i ≠ j) :
    (updateAt l i f).get? j = l.get? j := by
  induction l generalizing i j with
  | nil => cases i <;> rfl
  | cons a rest ih =>
    cases i with
    | zero =>
      cases j with
      | zero => exact absurd rfl h
      | succ j => rfl
    | succ i =>
      cases j with
      | zero => rfl
      | succ j => simpa [updateAt] using ih i j (by omega)

theorem get?_updateAt (l : List α) (i j : Nat) (f : α → α) :
    (updateAt l i f).get? j = if i = j then (l.get? j).map f else l.get? j := by
  by_cases h : i = j
  · subst h; rw [if_pos rfl, get?_updateAt_self]
  · rw [if_neg h, get?_updateAt_ne _ _ _ _ h]

theorem findIdxFrom_updateAt (p : α → Bool) (f : α → α) (l : List α) (i s : Nat)
    (hp : ∀ a, p (f a) = p a) :
    findIdxFrom p (updateAt l i f) s = findIdxFrom p l s := by
  induction l generalizing i s with
  | nil => cases i <;> rfl
  | cons a rest ih =>
    cases i with
    | zero => simp [updateAt, findIdxFrom, hp]
    | succ i => simp [updateAt, findIdxFrom]; split <;> simp [ih]

theorem findIdxFrom_ge (p : α → Bool) (l : List α) (s j : Nat)
    (h : findIdxFrom p l s = some j) : s ≤ j := by
  induction l generalizing s with
  | nil => simp [findIdxFrom] at h
  | cons a rest ih =>
    simp only [findIdxFrom] at h
    split at h
    · injection h with h; omega
    · have := ih (s + 1) h; omega

theorem findIdxFrom_some_spec (p : α → Bool) (l : List α) (s j : Nat)
    (h : findIdxFrom p l s = some j) :
    ∃ a, l.get? (j - s) = some a ∧ p a = true := by
  induction l generalizing s with
  | nil => simp [findIdxFrom] at h
  | cons a rest ih =>
    simp only [findIdxFrom] at h
    split at h
    · rename_i hp
      cases h
      exact ⟨a, by simp, hp⟩
    · have hs := findIdxFrom_ge p rest (s + 1) j h
      obtain ⟨b, hb, hpb⟩ := ih (s + 1) h
      refine ⟨b, ?_, hpb⟩
      have hj : j - s = (j - (s + 1)) + 1 := by omega
      simpa [hj] using hb

theorem findIdxFrom_isSome (p : α → Bool) (l : List α) (i : Nat) (a : α)
    (hget : l.get? i = some a) (hp : p a = true) :
    ∃ j, findIdxFrom p l 0 = some j := by
  induction l generalizing i with
  | nil => simp at hget
  | cons b rest ih =>
    cases i with
    | zero =>
      cases hget
      by_cases hb : p a = true
      · exact ⟨0, by simp [findIdxFrom, hb]⟩
      · exact absurd hp hb
    | succ i =>
      simp only [List.get?] at hget
      by_cases hb : p b = true
      · exact ⟨0, by simp [findIdxFrom, hb]⟩
      · obtain ⟨j, hj⟩ := ih i hget
        refine ⟨j + 1, ?_⟩
        simp only [findIdxFrom, hb, if_false]
        -- shift the start index by one
        have shift : ∀ (l : List α) (s : Nat) (j : Nat),
            findIdxFrom p l s = some j → findIdxFrom p l (s + 1) = some (j + 1) := by
          intro l
          induction l with
          | nil => intro s j h; simp [findIdxFrom] at h
          | cons c rest ihs =>
            intro s j h
            simp only [findIdxFrom] at h ⊢
            split at h
            · cases h; simp_all
            · simp_all [ihs]
        exact shift rest 0 j hj

theorem findIdxFrom_pointwise (p q : α → Bool) (l l' : List α) (s : Nat)
    (hlen : l.length = l'.length)
    (h : ∀ j a a', l.get? j = some a → l'.get? j = some a' → p a = q a') :
    findIdxFrom p l s = findIdxFrom q l' s := by
  induction l generalizing l' s with
  | nil => cases l' with
    | nil => rfl
    | cons _ _ => simp at hlen
  | cons a rest ih =>
    cases l' with
    | nil => simp at hlen
    | cons a' rest' =>
      have h0 : p a = q a' := h 0 a a' rfl rfl
      simp only [findIdxFrom, h0]
      split
      · rfl
      · exact ih rest' (s + 1) (by simpa using hlen)
          (fun j b b' hb hb' => h (j + 1) b b' (by simpa using hb) (by simpa using hb'))

/-! ## Invariants of a single tokenization step -/

theorem stepRel_refl (c : CmdBase) : StepRel c c :=
  ⟨rfl, ⟨[], by simp⟩, fun h => h⟩

theorem onlyTokMut_fields {c c' : CmdBase} (h : OnlyTokMut c c') :
    c'.name = c.name ∧ c'.command = c.command ∧ c'.alternative = c.alternative ∧
    c'.description = c.description ∧ c'.required = c.required ∧
    c'.dominant = c.dominant ∧ c'.variadic = c.variadic ∧ c'.kind = c.kind := by
  cases c; cases c'
  simp only [OnlyTokMut, CmdBase.mk.injEq] at h
  simp_all

theorem onlyTokMut_trans {a b c : CmdBase} (h1 : OnlyTokMut a b) (h2 : OnlyTokMut b c) :
    OnlyTokMut a c := by
  cases a; cases b; cases c
  simp only [OnlyTokMut, CmdBase.mk.injEq] at h1 h2 ⊢
  simp_all

theorem stepRel_trans {a b c : CmdBase} (h1 : StepRel a b) (h2 : StepRel b c) :
    StepRel a c := by
  obtain ⟨m1, ⟨e1, he1⟩, mono1⟩ := h1
  obtain ⟨m2, ⟨e2, he2⟩, mono2⟩ := h2
  exact ⟨onlyTokMut_trans m1 m2, ⟨e1 ++ e2, by simp [he2, he1]⟩, fun h => mono2 (mono1 h)⟩

theorem stepRel_markHandled (l : List CmdBase) (j i : Nat) (c : CmdBase)
    (h : l.get? i = some c) :
    ∃ c', (markHandled l j).get? i = some c' ∧ StepRel c c' := by
  by_cases hij : j = i
  · subst hij
    refine ⟨{ c with handled := true }, ?_, rfl, ⟨[], by simp⟩, fun _ => rfl⟩
    rw [markHandled, get?_updateAt_self, h]; rfl
  · exact ⟨c, by rw [markHandled, get?_updateAt_ne _ _ _ _ hij]; exact h, stepRel_refl c⟩

theorem stepRel_pushArg (l : List CmdBase) (j i : Nat) (tok : String) (c : CmdBase)
    (h : l.get? i = some c) :
    ∃ c', (pushArg l j tok).get? i = some c' ∧ StepRel c c' := by
  by_cases hij : j = i
  · subst hij
    refine ⟨{ c with arguments := c.arguments ++ [tok] }, ?_, rfl, ⟨[tok], rfl⟩, fun h => h⟩
    rw [pushArg, get?_updateAt_self, h]; rfl
  · exact ⟨c, by rw [pushArg, get?_updateAt_ne _ _ _ _ hij]; exact h, stepRel_refl c⟩

theorem markHandled_length (l : List CmdBase) (j : Nat) :
    (markHandled l j).length = l.length := updateAt_length l j _

theorem pushArg_length (l : List CmdBase) (j : Nat) (tok : String) :
    (pushArg l j tok).length = l.length := updateAt_length l j _

theorem findCmdIdx_markHandled (l : List CmdBase) (j : Nat) (t : String) :
    findCmdIdx (markHandled l j) t = findCmdIdx l t :=
  findIdxFrom_updateAt _ _ l j 0 (fun _ => rfl)

theorem findCmdIdx_pushArg (l : List CmdBase) (j : Nat) (tok t : String) :
    findCmdIdx (pushArg l j tok) t = findCmdIdx l t :=
  findIdxFrom_updateAt _ _ l j 0 (fun _ => rfl)

theorem findDefaultIdx_markHandled (l : List CmdBase) (j : Nat) :
    findDefaultIdx (markHandled l j) = findDefaultIdx l :=
  findIdxFrom_updateAt _ _ l j 0 (fun _ => rfl)

theorem findDefaultIdx_pushArg (l : List CmdBase) (j : Nat) (tok : String) :
    findDefaultIdx (pushArg l j tok) = findDefaultIdx l :=
  findIdxFrom_updateAt _ _ l j 0 (fun _ => rfl)

/-- A successful tokenization step changes descriptors only as `StepRel`
allows, keeps the registry's length, and leaves both lookups
unchanged. -/
theorem tokenizeStep_next_rel (st : TokState) (tok : String) (st' : TokState)
    (h : tokenizeStep st tok = .next st') :
    st'.commands.length = st.commands.length ∧
    (∀ t, findCmdIdx st'.commands t = findCmdIdx st.commands t) ∧
    findDefaultIdx st'.commands = findDefaultIdx st.commands ∧
    ∀ i c, st.commands.get? i = some c →
      ∃ c', st'.commands.get? i = some c' ∧ StepRel c c' := by
  simp only [tokenizeStep] at h
  split at h
  · -- a flag token matched descriptor j
    cases h
    refine ⟨markHandled_length _ _, fun t => findCmdIdx_markHandled _ _ t,
      findDefaultIdx_markHandled _ _, fun i c hc => stepRel_markHandled _ _ _ _ hc⟩
  · split at h
    · exact absurd h (by simp)
    · split at h
      · exact absurd h (by simp)
      · split at h
        · split at h
          · -- non-variadic with empty bucket: push the value, revert to default
            split at h
            · cases h
              refine ⟨?_, ?_, ?_, ?_⟩
              · simp [markHandled_length, pushArg_length]
              · intro t
                simp [findCmdIdx_markHandled, findCmdIdx_pushArg]
              · simp [findDefaultIdx_markHandled, findDefaultIdx_pushArg]
              · intro i c hc
                obtain ⟨c1, hc1, r1⟩ := stepRel_pushArg st.commands _ i _ c hc
                obtain ⟨c2, hc2, r2⟩ := stepRel_markHandled _ _ i c1 hc1
                exact ⟨c2, hc2, stepRel_trans r1 r2⟩
            · exact absurd h (by simp)
          · split at h
            · exact absurd h (by simp)
            · exact absurd h (by simp)
        · -- variadic: append the token and mark the cursor handled
          cases h
          refine ⟨?_, ?_, ?_, ?_⟩
          · simp [markHandled_length, pushArg_length]
          · intro t
            simp [findCmdIdx_markHandled, findCmdIdx_pushArg]
          · simp [findDefaultIdx_markHandled, findDefaultIdx_pushArg]
          · intro i c hc
            obtain ⟨c1, hc1, r1⟩ := stepRel_pushArg st.commands _ i _ c hc
            obtain ⟨c2, hc2, r2⟩ := stepRel_markHandled _ _ i c1 hc1
            exact ⟨c2, hc2, stepRel_trans r1 r2⟩

/-- `StepRel` invariants lifted to a whole successful tokenization. -/
theorem tokenize_next_rel (toks : List String) (st st' : TokState)
    (h : tokenize st toks = .next st') :
    st'.commands.length = st.commands.length ∧
    (∀ t, findCmdIdx st'.commands t = findCmdIdx st.commands t) ∧
    findDefaultIdx st'.commands = findDefaultIdx st.commands ∧
    ∀ i c, st.commands.get? i = some c →
      ∃ c', st'.commands.get? i = some c' ∧ StepRel c c' := by
  induction toks generalizing st with
  | nil =>
    cases h
    exact ⟨rfl, fun _ => rfl, rfl, fun i c hc => ⟨c, hc, stepRel_refl c⟩⟩
  | cons tok rest ih =>
    simp only [tokenize] at h
    cases hstep : tokenizeStep st tok with
    | next st1 =>
      rw [hstep] at h
      obtain ⟨len1, find1, def1, rel1⟩ := tokenizeStep_next_rel st tok st1 hstep
      obtain ⟨len2, find2, def2, rel2⟩ := ih st1 h
      refine ⟨len2.trans len1, fun t => (find2 t).trans (find1 t), def2.trans def1, ?_⟩
      intro i c hc
      obtain ⟨c1, hc1, r1⟩ := rel1 i c hc
      obtain ⟨c2, hc2, r2⟩ := rel2 i c1 hc1
      exact ⟨c2, hc2, stepRel_trans r1 r2⟩
    | fail ev cmds => rw [hstep] at h; cases h
    | crash cmds => rw [hstep] at h; cases h

/-- Tokenizing a concatenation runs the two halves in sequence. -/
theorem tokenize_append (st : TokState) (pre rest : List String) :
    tokenize st (pre ++ rest) =
      match tokenize st pre with
      | .next st' => tokenize st' rest
      | r => r := by
  induction pre generalizing st with
  | nil => rfl
  | cons tok pre ih =>
    simp only [List.cons_append, tokenize]
    cases hstep : tokenizeStep st tok with
    | next st1 => exact ih st1
    | fail ev cmds => rfl
    | crash cmds => rfl

/-! ## Where the `handled` flag can come from -/

theorem append_chain_ne {x y z : List String} (e1 e2 : List String)
    (hxy : y = x ++ e1) (hyz : z = y ++ e2) (h : y ≠ x ∨ z ≠ y) : z ≠ x := by
  subst hxy hyz
  intro heq
  have hlen := congrArg List.length heq
  simp [List.length_append] at hlen
  obtain ⟨h1, h2⟩ := hlen
  rcases h with h | h
  · exact h (by simp [h1])
  · exact h (by simp [h2])

/-- Single-step analysis of how a descriptor can become `handled`: its
flag matched the token, the token was routed to it (its bucket grew), or
it is the registry's default descriptor (the cursor-reversion mark). -/
theorem tokenizeStep_handled_origin (st : TokState) (tok : String) (st' : TokState)
    (h : tokenizeStep st tok = .next st') (i : Nat) (c c' : CmdBase)
    (hc : st.commands.get? i = some c) (hc' : st'.commands.get? i = some c')
    (hh : c'.handled = true) :
    c.handled = true ∨ FlagMatches st.commands tok i ∨
    c'.arguments ≠ c.arguments ∨ findDefaultIdx st.commands = some i := by
  simp only [tokenizeStep] at h
  split at h
  · -- flag-match branch
    rename_i j heq
    cases h
    dsimp only at hc'
    by_cases hij : j = i
    · subst hij
      refine .inr (.inl ⟨?_, ?_⟩)
      · by_cases hf : isFlagToken tok = true
        · exact hf
        · simp [hf] at heq
      · by_cases hf : isFlagToken tok = true
        · simpa [hf] using heq
        · simp [hf] at heq
    · rw [markHandled, get?_updateAt_ne _ _ _ _ hij, hc] at hc'
      injection hc' with hc'
      subst hc'
      exact .inl hh
  · split at h
    · exact absurd h (by simp)
    · split at h
      · exact absurd h (by simp)
      · split at h
        · split at h
          · split at h
            · -- non-variadic, empty bucket: push then revert to default
              rename_i cur hcur xg c0 hc0 hnv hemp xd d heqd
              cases h
              dsimp only at hc'
              by_cases hid : d = i
              · subst hid
                refine .inr (.inr (.inr ?_))
                rw [← heqd, findDefaultIdx_pushArg]
              · rw [markHandled, get?_updateAt_ne _ _ _ _ hid] at hc'
                by_cases hicur : cur = i
                · subst hicur
                  rw [pushArg, get?_updateAt_self, hc] at hc'
                  injection hc' with hc'
                  subst hc'
                  refine .inr (.inr (.inl ?_))
                  intro heq2
                  have := congrArg List.length heq2
                  simp at this
                · rw [pushArg, get?_updateAt_ne _ _ _ _ hicur, hc] at hc'
                  injection hc' with hc'
                  subst hc'
                  exact .inl hh
            · exact absurd h (by simp)
          · split at h
            · exact absurd h (by simp)
            · exact absurd h (by simp)
        · -- variadic branch: token appended to the cursor descriptor
          rename_i cur hcur xg c0 hc0 hv
          cases h
          dsimp only at hc'
          by_cases hicur : cur = i
          · subst hicur
            rw [markHandled, get?_updateAt_self, pushArg, get?_updateAt_self, hc] at hc'
            injection hc' with hc'
            subst hc'
            refine .inr (.inr (.inl ?_))
            intro heq2
            have := congrArg List.length heq2
            simp at this
          · rw [markHandled, get?_updateAt_ne _ _ _ _ hicur,
              pushArg, get?_updateAt_ne _ _ _ _ hicur, hc] at hc'
            injection hc' with hc'
            subst hc'
            exact .inl hh

/-- The `handled` origins, lifted to a whole tokenization run. -/
theorem tokenize_handled_origin (toks : List String) (st st' : TokState)
    (h : tokenize st toks = .next st') (i : Nat) (c c' : CmdBase)
    (hc : st.commands.get? i = some c) (hc' : st'.commands.get? i = some c')
    (hh : c'.handled = true) :
    c.handled = true ∨ (∃ tok ∈ toks, FlagMatches st.commands tok i) ∨
    c'.arguments ≠ c.arguments ∨ findDefaultIdx st.commands = some i := by
  induction toks generalizing st c with
  | nil =>
    cases h
    rw [hc] at hc'
    injection hc' with hc'
    subst hc'
    exact .inl hh
  | cons tok rest ih =>
    simp only [tokenize] at h
    cases hstep : tokenizeStep st tok with
    | next st1 =>
      rw [hstep] at h
      obtain ⟨len1, find1, def1, rel1⟩ := tokenizeStep_next_rel st tok st1 hstep
      obtain ⟨c1, hc1, m1, ⟨e1, he1⟩, mono1⟩ := rel1 i c hc
      obtain ⟨_, _, _, rel2⟩ := tokenize_next_rel rest st1 st' h
      obtain ⟨c2, hc2, m2, ⟨e2, he2⟩, mono2⟩ := rel2 i c1 hc1
      rw [hc2] at hc'
      injection hc' with hc'
      subst hc'
      rcases ih st1 h c1 hc1 with h1 | ⟨t, ht, hm⟩ | hne | hdef
      · rcases tokenizeStep_handled_origin st tok st1 hstep i c c1 hc hc1 h1 with
          h2 | h2 | h2 | h2
        · exact .inl h2
        · exact .inr (.inl ⟨tok, by simp, h2⟩)
        · exact .inr (.inr (.inl (append_chain_ne e1 e2 he1 he2 (.inl h2))))
        · exact .inr (.inr (.inr h2))
      · refine .inr (.inl ⟨t, by simp [ht], hm.1, ?_⟩)
        rw [← find1 t]; exact hm.2
      · exact .inr (.inr (.inl (append_chain_ne e1 e2 he1 he2 (.inr hne))))
      · rw [def1] at hdef
        exact .inr (.inr (.inr hdef))
    | fail ev cmds => rw [hstep] at h; cases h
    | crash cmds => rw [hstep] at h; cases h

theorem tokenizeStep_cursorOk (st : TokState) (tok : String) (st' : TokState)
    (h : tokenizeStep st tok = .next st') (hok : CursorOk st) : CursorOk st' := by
  simp only [tokenizeStep] at h
  split at h
  · rename_i j heq
    cases h
    intro i hi
    dsimp only at hi
    injection hi with hi
    subst hi
    have hf : isFlagToken tok = true := by
      by_cases hf : isFlagToken tok = true
      · exact hf
      · simp [hf] at heq
    rw [hf, if_pos rfl] at heq
    obtain ⟨a, ha, _⟩ := findIdxFrom_some_spec _ st.commands 0 j heq
    rw [Nat.sub_zero] at ha
    refine .inr ⟨{ a with handled := true }, ?_, rfl⟩
    dsimp only
    rw [markHandled, get?_updateAt_self, ha]
    rfl
  · split at h
    · exact absurd h (by simp)
    · split at h
      · exact absurd h (by simp)
      · split at h
        · split at h
          · split at h
            · rename_i cur hcur xg c0 hc0 hnv hemp xd d heqd
              cases h
              intro i hi
              dsimp only at hi
              injection hi with hi
              subst hi
              refine .inl ?_
              dsimp only
              rw [findDefaultIdx_markHandled]
              exact heqd
            · exact absurd h (by simp)
          · split at h
            · exact absurd h (by simp)
            · exact absurd h (by simp)
        · rename_i cur hcur xg c0 hc0 hv
          cases h
          intro i hi
          dsimp only at hi
          rw [hcur] at hi
          injection hi with hi
          subst hi
          refine .inr ⟨{ ({ c0 with arguments := c0.arguments ++ [tok] }) with
            handled := true }, ?_, rfl⟩
          dsimp only
          rw [markHandled, get?_updateAt_self, pushArg, get?_updateAt_self, hc0]
          rfl

theorem tokenize_cursorOk (toks : List String) (st st' : TokState)
    (h : tokenize st toks = .next st') (hok : CursorOk st) : CursorOk st' := by
  induction toks generalizing st with
  | nil => cases h; exact hok
  | cons tok rest ih =>
    simp only [tokenize] at h
    cases hstep : tokenizeStep st tok with
    | next st1 =>
      rw [hstep] at h
      exact ih st1 h (tokenizeStep_cursorOk st tok st1 hstep hok)
    | fail ev cmds => rw [hstep] at h; cases h
    | crash cmds => rw [hstep] at h; cases h

/-- A descriptor that comes out of a tokenization step unhandled was
unhandled before and did not receive the token. -/
theorem tokenizeStep_nothandled_args (st : TokState) (tok : String) (st' : TokState)
    (h : tokenizeStep st tok = .next st') (hok : CursorOk st) (i : Nat) (c c' : CmdBase)
    (hc : st.commands.get? i = some c) (hc' : st'.commands.get? i = some c')
    (hnh : c'.handled = false) :
    c'.arguments = c.arguments ∧ c.handled = false := by
  simp only [tokenizeStep] at h
  split at h
  · rename_i j heq
    cases h
    dsimp only at hc'
    by_cases hij : j = i
    · subst hij
      rw [markHandled, get?_updateAt_self, hc] at hc'
      injection hc' with hc'
      subst hc'
      cases hnh
    · rw [markHandled, get?_updateAt_ne _ _ _ _ hij, hc] at hc'
      injection hc' with hc'
      subst hc'
      exact ⟨rfl, hnh⟩
  · split at h
    · exact absurd h (by simp)
    · split at h
      · exact absurd h (by simp)
      · split at h
        · split at h
          · split at h
            · rename_i cur hcur xg c0 hc0 hnv hemp xd d heqd
              cases h
              dsimp only at hc'
              by_cases hid : d = i
              · subst hid
                rw [markHandled, get?_updateAt_self] at hc'
                cases hpd : (pushArg st.commands cur tok).get? d with
                | none => rw [hpd] at hc'; cases hc'
                | some a =>
                  rw [hpd] at hc'
                  injection hc' with hc'
                  subst hc'
                  cases hnh
              · rw [markHandled, get?_updateAt_ne _ _ _ _ hid] at hc'
                by_cases hicur : cur = i
                · subst hicur
                  -- the cursor is handled or the default; both contradict
                  rw [pushArg, get?_updateAt_self, hc] at hc'
                  injection hc' with hc'
                  subst hc'
                  rcases hok cur hcur with hdef | ⟨a, ha, hha⟩
                  · have hd2 : findDefaultIdx (pushArg st.commands cur tok) = some cur := by
                      rw [findDefaultIdx_pushArg]; exact hdef
                    rw [hd2] at heqd
                    injection heqd with heqd
                    exact absurd heqd.symm hid
                  · rw [ha] at hc
                    injection hc with hc
                    subst hc
                    rw [hha] at hnh
                    cases hnh
                · rw [pushArg, get?_updateAt_ne _ _ _ _ hicur, hc] at hc'
                  injection hc' with hc'
                  subst hc'
                  exact ⟨rfl, hnh⟩
            · exact absurd h (by simp)
          · split at h
            · exact absurd h (by simp)
            · exact absurd h (by simp)
        · rename_i cur hcur xg c0 hc0 hv
          cases h
          dsimp only at hc'
          by_cases hicur : cur = i
          · subst hicur
            rw [markHandled, get?_updateAt_self, pushArg, get?_updateAt_self, hc] at hc'
            injection hc' with hc'
            subst hc'
            cases hnh
          · rw [markHandled, get?_updateAt_ne _ _ _ _ hicur,
              pushArg, get?_updateAt_ne _ _ _ _ hicur, hc] at hc'
            injection hc' with hc'
            subst hc'
            exact ⟨rfl, hnh⟩

theorem tokenize_nothandled_args (toks : List String) (st st' : TokState)
    (h : tokenize st toks = .next st') (hok : CursorOk st) (i : Nat) (c c' : CmdBase)
    (hc : st.commands.get? i = some c) (hc' : st'.commands.get? i = some c')
    (hnh : c'.handled = false) :
    c'.arguments = c.arguments ∧ c.handled = false := by
  induction toks generalizing st c with
  | nil =>
    cases h
    rw [hc] at hc'
    injection hc' with hc'
    subst hc'
    exact ⟨rfl, hnh⟩
  | cons tok rest ih =>
    simp only [tokenize] at h
    cases hstep : tokenizeStep st tok with
    | next st1 =>
      rw [hstep] at h
      obtain ⟨_, _, _, rel1⟩ := tokenizeStep_next_rel st tok st1 hstep
      obtain ⟨c1, hc1, _⟩ := rel1 i c hc
      obtain ⟨ha1, hh1⟩ := ih st1 h (tokenizeStep_cursorOk st tok st1 hstep hok) c1 hc1
      obtain ⟨ha0, hh0⟩ :=
        tokenizeStep_nothandled_args st tok st1 hstep hok i c c1 hc hc1 hh1
      exact ⟨ha1.trans ha0, hh0⟩
    | fail ev cmds => rw [hstep] at h; cases h
    | crash cmds => rw [hstep] at h; cases h

/-- A token that resolves to a descriptor's flag leaves that descriptor
handled at the end of tokenization. -/
theorem tokenize_flagmatch_handled (toks : List String) (st st' : TokState)
    (h : tokenize st toks = .next st') (tok : String) (htok : tok ∈ toks) (i : Nat)
    (hm : FlagMatches st.commands tok i) :
    ∃ c', st'.commands.get? i = some c' ∧ c'.handled = true := by
  induction toks generalizing st with
  | nil => cases htok
  | cons t rest ih =>
    simp only [tokenize] at h
    cases hstep : tokenizeStep st t with
    | next st1 =>
      rw [hstep] at h
      rcases List.mem_cons.mp htok with rfl | htok
      · -- the head token matches: the step marks descriptor i handled
        have hstep2 : st1.commands = markHandled st.commands i := by
          simp only [tokenizeStep, hm.1, if_pos, hm.2] at hstep
          injection hstep with hstep
          rw [← hstep]
        obtain ⟨a, ha, _⟩ := findIdxFrom_some_spec _ st.commands 0 i hm.2
        rw [Nat.sub_zero] at ha
        have hmarked : st1.commands.get? i = some { a with handled := true } := by
          rw [hstep2, markHandled, get?_updateAt_self, ha]
          rfl
        obtain ⟨_, _, _, rel2⟩ := tokenize_next_rel rest st1 st' h
        obtain ⟨c', hc', _, _, mono⟩ := rel2 i _ hmarked
        exact ⟨c', hc', mono rfl⟩
      · obtain ⟨_, find1, _, _⟩ := tokenizeStep_next_rel st t st1 hstep
        exact ih st1 h htok ⟨hm.1, by rw [find1]; exact hm.2⟩
    | fail ev cmds => rw [hstep] at h; cases h
    | crash cmds => rw [hstep] at h; cases h

/-! ## Invariants of the resolution passes -/

/-- `parse` mutates only the stored value (the `kind` payload); every
other descriptor field is preserved. -/
theorem parse_preserves (c : CmdBase) :
    (c.parse.2).name = c.name ∧ (c.parse.2).required = c.required ∧
    (c.parse.2).handled = c.handled ∧ (c.parse.2).dominant = c.dominant ∧
    (c.parse.2).variadic = c.variadic ∧ (c.parse.2).arguments = c.arguments := by
  cases hk : c.kind <;> simp [CmdBase.parse, hk]

/-- A descriptor that the pass does not select, or whose `parse` is the
identity success, is returned unchanged. -/
theorem passLoop_frame (pred : CmdBase → Bool) (mkFail : Nat → String → Event)
    (l : List CmdBase) (i0 j : Nat) (c : CmdBase)
    (hget : l.get? j = some c) (hc : pred c = false ∨ c.parse = (true, c)) :
    (passLoop pred mkFail l i0).commands.get? j = some c := by
  induction l generalizing i0 j with
  | nil => simp at hget
  | cons a rest ih =>
    cases j with
    | zero =>
      rw [show (a :: rest).get? 0 = some a from rfl] at hget
      injection hget with hget
      subst hget
      by_cases hp : pred a
      · rcases hc with hc | hc
        · rw [hp] at hc; cases hc
        · simp only [passLoop, hp, if_true, hc]
          by_cases hv : a.validate <;> simp [hv]
      · simp [passLoop, hp]
    | succ j =>
      rw [show (a :: rest).get? (j + 1) = rest.get? j from rfl] at hget
      by_cases hp : pred a
      · simp only [passLoop, hp, if_true]
        by_cases h1 : a.parse.1
        · by_cases hv : (a.parse.2).validate
          · simp only [h1, hv, if_true]
            exact ih (i0 + 1) j hget
          · simp only [h1, hv, if_true, if_false]
            simpa using hget
        · simp only [h1, if_false]
          simpa using hget
      · simp only [passLoop, hp, if_false]
        exact ih (i0 + 1) j hget

/-- The pass preserves the registry's length. -/
theorem passLoop_length (pred : CmdBase → Bool) (mkFail : Nat → String → Event)
    (l : List CmdBase) (i0 : Nat) :
    (passLoop pred mkFail l i0).commands.length = l.length := by
  induction l generalizing i0 with
  | nil => rfl
  | cons a rest ih =>
    by_cases hp : pred a
    · simp only [passLoop, hp, if_true]
      by_cases h1 : a.parse.1
      · by_cases hv : (a.parse.2).validate
        · simp [h1, hv, ih]
        · simp [h1, hv]
      · simp [h1]
    · simp [passLoop, hp, ih]

/-- The pass changes only stored values: every non-value field of every
descriptor is preserved. -/
theorem passLoop_preserves (pred : CmdBase → Bool) (mkFail : Nat → String → Event)
    (l : List CmdBase) (i0 j : Nat) (c : CmdBase) (hget : l.get? j = some c) :
    ∃ c', (passLoop pred mkFail l i0).commands.get? j = some c' ∧
      c'.name = c.name ∧ c'.required = c.required ∧ c'.handled = c.handled ∧
      c'.dominant = c.dominant ∧ c'.variadic = c.variadic ∧
      c'.arguments = c.arguments := by
  induction l generalizing i0 j with
  | nil => simp at hget
  | cons a rest ih =>
    cases j with
    | zero =>
      rw [show (a :: rest).get? 0 = some a from rfl] at hget
      injection hget with hget
      subst hget
      by_cases hp : pred a
      · simp only [passLoop, hp, if_true]
        obtain ⟨f1, f2, f3, f4, f5, f6⟩ := parse_preserves a
        by_cases h1 : a.parse.1
        · by_cases hv : (a.parse.2).validate
          · exact ⟨a.parse.2, by simp [h1, hv], f1, f2, f3, f4, f5, f6⟩
          · exact ⟨a.parse.2, by simp [h1, hv], f1, f2, f3, f4, f5, f6⟩
        · exact ⟨a.parse.2, by simp [h1], f1, f2, f3, f4, f5, f6⟩
      · exact ⟨a, by simp [passLoop, hp], rfl, rfl, rfl, rfl, rfl, rfl⟩
    | succ j =>
      rw [show (a :: rest).get? (j + 1) = rest.get? j from rfl] at hget
      by_cases hp : pred a
      · simp only [passLoop, hp, if_true]
        by_cases h1 : a.parse.1
        · by_cases hv : (a.parse.2).validate
          · simpa [h1, hv] using ih (i0 + 1) j hget
          · exact ⟨c, by simp only [h1, hv, if_true, if_false]; simpa using hget,
              rfl, rfl, rfl, rfl, rfl, rfl⟩
        · exact ⟨c, by simp only [h1, if_false]; simpa using hget,
            rfl, rfl, rfl, rfl, rfl, rfl⟩
      · simp only [passLoop, hp, if_false]
        exact ih (i0 + 1) j hget

/-- The first descriptor selected by the pass always gets its `parse`
called: a `parseCalled` event for its index is in the pass's events. -/
theorem passLoop_first_parseCalled (pred : CmdBase → Bool) (mkFail : Nat → String → Event)
    (l : List CmdBase) (i0 j : Nat) (hfind : findIdxFrom pred l i0 = some j) :
    ∃ b, Event.parseCalled j b ∈ (passLoop pred mkFail l i0).events := by
  induction l generalizing i0 with
  | nil => simp [findIdxFrom] at hfind
  | cons a rest ih =>
    simp only [findIdxFrom] at hfind
    by_cases hp : pred a
    · rw [if_pos hp] at hfind
      injection hfind with hfind
      subst hfind
      by_cases h1 : a.parse.1
      · by_cases hv : (a.parse.2).validate
        · exact ⟨true, by simp [passLoop, hp, h1, hv]⟩
        · exact ⟨true, by simp [passLoop, hp, h1, hv]⟩
      · exact ⟨false, by simp [passLoop, hp, h1]⟩
    · rw [if_neg hp] at hfind
      obtain ⟨b, hb⟩ := ih (i0 + 1) hfind
      refine ⟨b, ?_⟩
      simp [passLoop, hp, hb]

/-- Every event a pass emits is a `parseCalled`, a `validateCalled`, or
its failure diagnostic. -/
theorem passLoop_events_shape (pred : CmdBase → Bool) (mkFail : Nat → String → Event)
    (l : List CmdBase) (i0 : Nat) :
    ∀ ev ∈ (passLoop pred mkFail l i0).events,
      (∃ k b, ev = .parseCalled k b) ∨ (∃ k b, ev = .validateCalled k b) ∨
      (∃ k n, ev = mkFail k n) := by
  induction l generalizing i0 with
  | nil => simp [passLoop]
  | cons a rest ih =>
    intro ev hev
    by_cases hp : pred a
    · simp only [passLoop, hp, if_true] at hev
      by_cases h1 : a.parse.1
      · by_cases hv : (a.parse.2).validate
        · simp only [h1, hv, if_true, List.mem_cons] at hev
          rcases hev with rfl | rfl | hev
          · exact .inl ⟨_, _, rfl⟩
          · exact .inr (.inl ⟨_, _, rfl⟩)
          · exact ih (i0 + 1) ev hev
        · simp [h1, hv] at hev
          rcases hev with rfl | rfl | rfl
          · exact .inl ⟨_, _, rfl⟩
          · exact .inr (.inl ⟨_, _, rfl⟩)
          · exact .inr (.inr ⟨_, _, rfl⟩)
      · simp [h1] at hev
        rcases hev with rfl | rfl
        · exact .inl ⟨_, _, rfl⟩
        · exact .inr (.inr ⟨_, _, rfl⟩)
    · simp only [passLoop, hp, if_false] at hev
      exact ih (i0 + 1) ev hev

/-- A descriptor that is required and unhandled forces the required
check to report the first such descriptor. -/
theorem requiredCheck_spec (l : List CmdBase) (i : Nat) (c : CmdBase)
    (hget : l.get? i = some c) (hreq : c.required = true) (hnh : c.handled = false) :
    ∃ r, requiredCheck l = some r ∧ ∃ c', l.get? r.1 = some c' ∧
      c'.required = true ∧ c'.handled = false ∧ r.2 = c'.name := by
  obtain ⟨j, hj⟩ := findIdxFrom_isSome (fun c => c.required && !c.handled) l i c hget
    (by simp [hreq, hnh])
  obtain ⟨a, ha, hpa⟩ := findIdxFrom_some_spec _ l 0 j hj
  rw [Nat.sub_zero] at ha
  refine ⟨(j, a.name), ?_, a, ha, ?_, ?_, rfl⟩
  · have ha2 : l[j]? = some a := by simpa using ha
    simp [requiredCheck, hj, ha2]
  · simpa using (Bool.and_elim_left hpa)
  · have := Bool.and_elim_right hpa
    simpa using this

/-- Unfolding of `run` after a successful tokenization. -/
theorem run_next (commands : List CmdBase) (arguments : List String) (st : TokState)
    (htok : tokenize { commands := commands, current := findDefaultIdx commands }
      arguments = .next st) :
    run commands arguments =
      (if (dominantPass st.commands).success then
        match requiredCheck (dominantPass st.commands).commands with
        | some r =>
          { outcome := .ok false
            events := (dominantPass st.commands).events ++ [.missingRequired r.1 r.2]
            commands := (dominantPass st.commands).commands }
        | none =>
          { outcome := .ok (normalPass (dominantPass st.commands).commands).success
            events := (dominantPass st.commands).events ++
              (normalPass (dominantPass st.commands).commands).events
            commands := (normalPass (dominantPass st.commands).commands).commands }
      else
        { outcome := .ok false
          events := (dominantPass st.commands).events
          commands := (dominantPass st.commands).commands }) := by
  unfold run
  rw [htok]

/-- The initial tokenization state of `run` satisfies the cursor
invariant. -/
theorem cursorOk_init (commands : List CmdBase) :
    CursorOk { commands := commands, current := findDefaultIdx commands } :=
  fun _ hi => .inl hi

/-! ## Decimal rendering and `stoi`: the round-trip lemmas -/

theorem digitVal_digitChar (d : Nat) (hd : d < 10) : digitVal (digitChar d) = some d := by
  interval_cases d <;> decide

theorem digitChar_not_space (d : Nat) (hd : d < 10) : isSpaceChar (digitChar d) = false := by
  interval_cases d <;> decide

theorem digitChar_beq_minus (d : Nat) (hd : d < 10) : (digitChar d == '-') = false := by
  interval_cases d <;> decide

theorem digitChar_beq_plus (d : Nat) (hd : d < 10) : (digitChar d == '+') = false := by
  interval_cases d <;> decide

theorem digitChar_beq_x (d : Nat) (hd : d < 10) :
    (digitChar d == 'x') = false ∧ (digitChar d == 'X') = false := by
  interval_cases d <;> exact ⟨by decide, by decide⟩

theorem digitChar_beq_zero (d : Nat) (hd : d < 10) (h0 : d ≠ 0) :
    (digitChar d == '0') = false := by
  interval_cases d
  · exact absurd rfl h0
  all_goals decide

theorem isBaseDigit_ten_digitChar (d : Nat) (hd : d < 10) :
    isBaseDigit 10 (digitChar d) = true := by
  interval_cases d <;> decide

/-- All digits produced by `toDigitsRev` are below 10. -/
theorem toDigitsRev_mem_lt (fuel n : Nat) : ∀ d ∈ toDigitsRev fuel n, d < 10 := by
  induction fuel generalizing n with
  | zero => simp [toDigitsRev]
  | succ fuel ih =>
    intro d hd
    simp only [toDigitsRev] at hd
    split at hd
    · cases hd
    · rcases List.mem_cons.mp hd with rfl | hd
      · exact Nat.mod_lt _ (by omega)
      · exact ih _ d hd

theorem toDigitsRev_zero (fuel : Nat) : toDigitsRev fuel 0 = [] := by
  cases fuel <;> simp [toDigitsRev]

/-- For positive `n` (with enough fuel) the most significant digit — the
head of the reversed digit list — is nonzero. -/
theorem toDigitsRev_reverse_head (fuel n : Nat) (hn : n ≠ 0) (hfn : n ≤ fuel) :
    ∃ d tl, (toDigitsRev fuel n).reverse = d :: tl ∧ d ≠ 0 ∧ d < 10 := by
  induction fuel generalizing n with
  | zero => omega
  | succ fuel ih =>
    simp only [toDigitsRev, if_neg hn, List.reverse_cons]
    by_cases h10 : n / 10 = 0
    · rw [h10, toDigitsRev_zero]
      refine ⟨n % 10, [], by simp, ?_, Nat.mod_lt _ (by omega)⟩
      have : n < 10 := by omega
      omega
    · obtain ⟨d, tl, hrev, hd0, hd10⟩ := ih (n / 10) h10 (by omega)
      exact ⟨d, tl ++ [n % 10], by rw [hrev]; simp, hd0, hd10⟩

/-- Folding the reversed digit list back with base 10 recovers `n`. -/
theorem foldr_toDigitsRev (fuel n : Nat) (hfn : n ≤ fuel) :
    (toDigitsRev fuel n).foldr (fun d a => a * 10 + d) 0 = n := by
  induction fuel generalizing n with
  | zero =>
    have : n = 0 := by omega
    simp [this, toDigitsRev]
  | succ fuel ih =>
    by_cases hn : n = 0
    · simp [toDigitsRev, hn]
    · simp only [toDigitsRev, if_neg hn, List.foldr_cons]
      rw [ih (n / 10) (by omega)]
      omega

theorem foldl_digitChars (L : List Nat) (hL : ∀ d ∈ L, d < 10) (acc : Nat) :
    (L.map digitChar).foldl (fun a c => a * 10 + (digitVal c).getD 0) acc =
    L.foldl (fun a d => a * 10 + d) acc := by
  induction L generalizing acc with
  | nil => rfl
  | cons d tl ih =>
    simp only [List.map_cons, List.foldl_cons]
    rw [digitVal_digitChar d (hL d (by simp))]
    exact ih (fun x hx => hL x (by simp [hx])) _

theorem takeWhile_all (p : α → Bool) (l : List α) (h : ∀ a ∈ l, p a = true) :
    l.takeWhile p = l := by
  induction l with
  | nil => rfl
  | cons a tl ih =>
    rw [List.takeWhile_cons, h a (by simp)]
    simp [ih (fun x hx => h x (by simp [hx]))]
/-- `hexStart` is false on a list of decimal digit characters. -/
theorem hexStart_digitChars (d : Nat) (tl : List Nat) (hL : ∀ x ∈ d :: tl, x < 10) :
    hexStart (digitChar d :: tl.map digitChar) = false := by
  cases tl with
  | nil => rfl
  | cons d1 tl1 =>
    have h1 : d1 < 10 := hL d1 (by simp)
    cases tl1 with
    | nil => rfl
    | cons d2 tl2 =>
      simp only [List.map_cons, hexStart]
      rw [(digitChar_beq_x d1 h1).1, (digitChar_beq_x d1 h1).2]
      simp

theorem stoiSign_digit (d : Nat) (hd : d < 10) (rest : List Char) :
    stoiSign (digitChar d :: rest) = (1, digitChar d :: rest) := by
  simp [stoiSign, digitChar_beq_minus d hd, digitChar_beq_plus d hd]

theorem stoiBase_decimalDigits (d : Nat) (tl : List Nat) (hd0 : d ≠ 0)
    (halld : ∀ x ∈ d :: tl, x < 10) :
    stoiBase 0 (digitChar d :: tl.map digitChar) = (10, digitChar d :: tl.map digitChar) := by
  have hd10 : d < 10 := halld d (by simp)
  simp [stoiBase, hexStart_digitChars d tl halld, digitChar_beq_zero d hd10 hd0]

/-- `stoiCore` on a nonzero-leading decimal digit string with base 0:
the base auto-detects to 10 and the digits fold back to the value. -/
theorem stoiCore_digitList (d : Nat) (tl : List Nat) (hd0 : d ≠ 0)
    (halld : ∀ x ∈ d :: tl, x < 10)
    (hmax : (((d :: tl).foldl (fun a x => a * 10 + x) 0 : Nat) : Int) ≤ intMax) :
    stoiCore (digitChar d :: tl.map digitChar) 0 =
      .ok (((d :: tl).foldl (fun a x => a * 10 + x) 0 : Nat) : Int) := by
  have hd10 : d < 10 := halld d (by simp)
  have hdrop : (digitChar d :: tl.map digitChar).dropWhile isSpaceChar =
      digitChar d :: tl.map digitChar := by
    rw [List.dropWhile_cons, digitChar_not_space d hd10]
    simp
  have hsign := stoiSign_digit d hd10 (tl.map digitChar)
  have hbase := stoiBase_decimalDigits d tl hd0 halld
  have htake : (digitChar d :: tl.map digitChar).takeWhile (isBaseDigit 10) =
      digitChar d :: tl.map digitChar :=
    takeWhile_all _ _ (by
      intro c hc
      rcases List.mem_cons.mp hc with rfl | hc
      · exact isBaseDigit_ten_digitChar d hd10
      · obtain ⟨x, hx, rfl⟩ := List.mem_map.mp hc
        exact isBaseDigit_ten_digitChar x (halld x (by simp [hx])))
  have hfoldl : (digitChar d :: tl.map digitChar).foldl
      (fun a c => a * 10 + (digitVal c).getD 0) 0 =
      (d :: tl).foldl (fun a x => a * 10 + x) 0 := by
    have h := foldl_digitChars (d :: tl) halld 0
    simpa using h
  have hne : ¬(digitChar d :: tl.map digitChar = []) := by simp
  have hrange : ¬((1 : Int) * (((d :: tl).foldl (fun a x => a * 10 + x) 0 : Nat) : Int) < intMin ∨
      intMax < (1 : Int) * (((d :: tl).foldl (fun a x => a * 10 + x) 0 : Nat) : Int)) := by
    have e1 : intMin = -2147483648 := by decide
    push_neg
    refine ⟨?_, ?_⟩
    · rw [e1]
      have hpos : (0 : Int) ≤ (((d :: tl).foldl (fun a x => a * 10 + x) 0 : Nat) : Int) :=
        Int.ofNat_nonneg _
      omega
    · simpa using hmax
  simp only [stoiCore, hdrop, hsign, hbase, htake, hfoldl]
  rw [if_neg hne, if_neg hrange]
  simp

/-- `stoiCore` on a minus sign followed by decimal digits. -/
theorem stoiCore_negDigitList (d : Nat) (tl : List Nat) (hd0 : d ≠ 0)
    (halld : ∀ x ∈ d :: tl, x < 10)
    (hmin : intMin ≤ -(((d :: tl).foldl (fun a x => a * 10 + x) 0 : Nat) : Int)) :
    stoiCore ('-' :: digitChar d :: tl.map digitChar) 0 =
      .ok (-(((d :: tl).foldl (fun a x => a * 10 + x) 0 : Nat) : Int)) := by
  have hd10 : d < 10 := halld d (by simp)
  have hdrop : ('-' :: digitChar d :: tl.map digitChar).dropWhile isSpaceChar =
      '-' :: digitChar d :: tl.map digitChar := by
    rw [List.dropWhile_cons]
    simp [isSpaceChar]
  have hsign : stoiSign ('-' :: digitChar d :: tl.map digitChar) =
      (-1, digitChar d :: tl.map digitChar) := by
    simp [stoiSign]
  have hbase := stoiBase_decimalDigits d tl hd0 halld
  have htake : (digitChar d :: tl.map digitChar).takeWhile (isBaseDigit 10) =
      digitChar d :: tl.map digitChar :=
    takeWhile_all _ _ (by
      intro c hc
      rcases List.mem_cons.mp hc with rfl | hc
      · exact isBaseDigit_ten_digitChar d hd10
      · obtain ⟨x, hx, rfl⟩ := List.mem_map.mp hc
        exact isBaseDigit_ten_digitChar x (halld x (by simp [hx])))
  have hfoldl : (digitChar d :: tl.map digitChar).foldl
      (fun a c => a * 10 + (digitVal c).getD 0) 0 =
      (d :: tl).foldl (fun a x => a * 10 + x) 0 := by
    have h := foldl_digitChars (d :: tl) halld 0
    simpa using h
  have hne : ¬(digitChar d :: tl.map digitChar = []) := by simp
  have hrange : ¬((-1 : Int) * (((d :: tl).foldl (fun a x => a * 10 + x) 0 : Nat) : Int) < intMin ∨
      intMax < (-1 : Int) * (((d :: tl).foldl (fun a x => a * 10 + x) 0 : Nat) : Int)) := by
    have e2 : intMax = 2147483647 := by decide
    push_neg
    refine ⟨?_, ?_⟩
    · have : (-1 : Int) * (((d :: tl).foldl (fun a x => a * 10 + x) 0 : Nat) : Int) =
          -(((d :: tl).foldl (fun a x => a * 10 + x) 0 : Nat) : Int) := by ring
      rw [this]
      exact hmin
    · rw [e2]
      have hpos : (0 : Int) ≤ (((d :: tl).foldl (fun a x => a * 10 + x) 0 : Nat) : Int) :=
        Int.ofNat_nonneg _
      omega
  simp only [stoiCore, hdrop, hsign, hbase, htake, hfoldl]
  rw [if_neg hne, if_neg hrange]
  congr 1
  ring

/-- Character-level decomposition of the decimal rendering of a nonzero
natural number. -/
theorem natToString_data (m : Nat) (hm : m ≠ 0) :
    ∃ d tl, (natToString m).data = digitChar d :: tl.map digitChar ∧ d ≠ 0 ∧
      (∀ x ∈ d :: tl, x < 10) ∧
      (d :: tl).foldl (fun a x => a * 10 + x) 0 = m := by
  obtain ⟨d, tl, hrev, hd0, hd10⟩ := toDigitsRev_reverse_head m m hm (Nat.le_refl m)
  have hall : ∀ x ∈ d :: tl, x < 10 := by
    rw [← hrev]
    exact fun x hx => toDigitsRev_mem_lt m m x (List.mem_reverse.mp hx)
  refine ⟨d, tl, ?_, hd0, hall, ?_⟩
  · simp [natToString, hm, hrev]
  · rw [← hrev, List.foldl_reverse]
    have h := foldr_toDigitsRev m m (Nat.le_refl m)
    simpa using h

/-- `std::stoi` with auto-detected base inverts `std::to_string` on every
value of the C++ `int` type. -/
theorem stoi_intToString (n : Int) (h1 : intMin ≤ n) (h2 : n ≤ intMax) :
    stoi (intToString n) 0 = .ok n := by
  rcases lt_trichotomy n 0 with hneg | rfl | hpos
  · -- negative: a minus sign followed by the digits of |n|
    have hm : n.natAbs ≠ 0 := by
      intro h
      omega
    obtain ⟨d, tl, hchars, hd0, hall, hfold⟩ := natToString_data n.natAbs hm
    have hdata : (intToString n).data = '-' :: (natToString n.natAbs).data := by
      simp only [intToString, if_pos hneg]
      rfl
    have hmin : intMin ≤ -(((d :: tl).foldl (fun a x => a * 10 + x) 0 : Nat) : Int) := by
      rw [hfold]
      have : ((n.natAbs : Nat) : Int) = -n := by omega
      omega
    rw [stoi, hdata, hchars, stoiCore_negDigitList d tl hd0 hall hmin]
    congr 1
    rw [hfold]
    omega
  · decide
  · have hm : n.natAbs ≠ 0 := by
      intro h
      omega
    obtain ⟨d, tl, hchars, hd0, hall, hfold⟩ := natToString_data n.natAbs hm
    have hdata : (intToString n).data = (natToString n.natAbs).data := by
      simp [intToString, not_lt_of_gt hpos]
    have hmax : (((d :: tl).foldl (fun a x => a * 10 + x) 0 : Nat) : Int) ≤ intMax := by
      rw [hfold]
      have : ((n.natAbs : Nat) : Int) = n := by omega
      omega
    rw [stoi, hdata, hchars, stoiCore_digitList d tl hd0 hall hmax]
    congr 1
    rw [hfold]
    omega

/-- Unfolding of `run` after a failed tokenization. -/
theorem run_fail (commands : List CmdBase) (arguments : List String)
    (ev : Event) (cmds : List CmdBase)
    (htok : tokenize { commands := commands, current := findDefaultIdx commands }
      arguments = .fail ev cmds) :
    run commands arguments = { outcome := .ok false, events := [ev], commands := cmds } := by
  unfold run
  rw [htok]

/-- The "use default" short-circuit: a non-required value descriptor with
an empty bucket parses successfully and is returned unchanged. -/
theorem parse_default_id (c : CmdBase) (v : Value) (vf : Option (Value → Bool))
    (hk : c.kind = .argument v vf) (hreq : c.required = false)
    (hargs : c.arguments = []) : c.parse = (true, c) := by
  have hp : cmdArgumentParse c.required c.arguments v = (true, v) := by
    rw [hreq, hargs]
    rfl
  simp only [CmdBase.parse, hk, hp]
  rw [← hk]

/-- Characters that are valid base-16 digits are not whitespace, signs,
`0x` markers. -/
theorem hexDigitFacts (c : Char) (h : isBaseDigit 16 c = true) :
    isSpaceChar c = false ∧ (c == '-') = false ∧ (c == '+') = false ∧
    (c == 'x') = false ∧ (c == 'X') = false := by
  refine ⟨?_, ?_, ?_, ?_, ?_⟩
  · cases hsp : isSpaceChar c
    · rfl
    · simp only [isSpaceChar, Bool.or_eq_true, decide_eq_true_eq] at hsp
      rcases hsp with ((((rfl | rfl) | rfl) | rfl) | rfl) | rfl <;> exact absurd h (by decide)
  · cases hb : (c == '-')
    · rfl
    · rw [beq_iff_eq] at hb
      subst hb
      exact absurd h (by decide)
  · cases hb : (c == '+')
    · rfl
    · rw [beq_iff_eq] at hb
      subst hb
      exact absurd h (by decide)
  · cases hb : (c == 'x')
    · rfl
    · rw [beq_iff_eq] at hb
      subst hb
      exact absurd h (by decide)
  · cases hb : (c == 'X')
    · rfl
    · rw [beq_iff_eq] at hb
      subst hb
      exact absurd h (by decide)

/-! ## The claims -/

/-- C1: Resolution inside `run` proceeds in three ordered passes over the
registry: first the dominant pass (for every handled dominant
descriptor, `parse` then `validate`, any failure aborting `run` before
the required check runs), second the required check, third the normal
pass over handled non-dominant descriptors; and the first handled
dominant descriptor's `parse` executes regardless of whether some
required descriptor was never handled. -/
theorem claim_C1_three_ordered_passes (commands : List CmdBase) (arguments : List String)
    (st : TokState)
    (htok : tokenize { commands := commands, current := findDefaultIdx commands }
      arguments = .next st) :
    (∃ t, (run commands arguments).events = (dominantPass st.commands).events ++ t) ∧
    ((dominantPass st.commands).success = false →
      (run commands arguments).outcome = .ok false ∧
      (run commands arguments).events = (dominantPass st.commands).events ∧
      ∀ i name, Event.missingRequired i name ∉ (run commands arguments).events) ∧
    ((dominantPass st.commands).success = true →
      ∀ r, requiredCheck (dominantPass st.commands).commands = some r →
        (run commands arguments).outcome = .ok false ∧
        (run commands arguments).events =
          (dominantPass st.commands).events ++ [.missingRequired r.1 r.2]) ∧
    ((dominantPass st.commands).success = true →
      requiredCheck (dominantPass st.commands).commands = none →
      (run commands arguments).events = (dominantPass st.commands).events ++
        (normalPass (dominantPass st.commands).commands).events ∧
      (run commands arguments).outcome =
        .ok (normalPass (dominantPass st.commands).commands).success) ∧
    (∀ j, findIdxFrom (fun c => c.handled && c.dominant) st.commands 0 = some j →
      ∃ b, Event.parseCalled j b ∈ (run commands arguments).events) := by
  have hrun := run_next commands arguments st htok
  by_cases hs : (dominantPass st.commands).success
  · cases hrc : requiredCheck (dominantPass st.commands).commands with
    | some r =>
      rw [hrun, if_pos hs, hrc]
      refine ⟨⟨[.missingRequired r.1 r.2], rfl⟩, ?_, ?_, ?_, ?_⟩
      · intro h
        rw [hs] at h
        cases h
      · intro _ r2 hr2
        injection hr2 with hr2
        subst hr2
        exact ⟨rfl, rfl⟩
      · intro _ hnone
        cases hnone
      · intro j hj
        obtain ⟨b, hb⟩ :=
          passLoop_first_parseCalled _ Event.dominantFail st.commands 0 j hj
        exact ⟨b, List.mem_append_left _ hb⟩
    | none =>
      rw [hrun, if_pos hs, hrc]
      refine ⟨⟨(normalPass (dominantPass st.commands).commands).events, rfl⟩, ?_, ?_, ?_, ?_⟩
      · intro h
        rw [hs] at h
        cases h
      · intro _ r2 hr2
        cases hr2
      · intro _ _
        exact ⟨rfl, rfl⟩
      · intro j hj
        obtain ⟨b, hb⟩ :=
          passLoop_first_parseCalled _ Event.dominantFail st.commands 0 j hj
        exact ⟨b, List.mem_append_left _ hb⟩
  · rw [hrun, if_neg hs]
    refine ⟨⟨[], by simp⟩, ?_, ?_, ?_, ?_⟩
    · intro _
      refine ⟨rfl, rfl, ?_⟩
      intro i name hmem
      rcases passLoop_events_shape _ Event.dominantFail st.commands 0 _ hmem with
        ⟨k, b, hk⟩ | ⟨k, b, hk⟩ | ⟨k, n, hk⟩ <;> cases hk
    · intro h
      exact absurd h hs
    · intro h _
      exact absurd h hs
    · intro j hj
      obtain ⟨b, hb⟩ :=
        passLoop_first_parseCalled _ Event.dominantFail st.commands 0 j hj
      exact ⟨b, hb⟩

/-- C1 witness: a required `-r` never supplied and a dominant `-d`
supplied; the dominant descriptor's `parse` runs (first event), then the
required check fails. -/
theorem claim_C1_witness :
    (run regDomReq ["-d"]).outcome = .ok false ∧
    (run regDomReq ["-d"]).events =
      (dominantPass (markHandled regDomReq 1)).events ++ [.missingRequired 0 "r"] ∧
    ∃ b, Event.parseCalled 1 b ∈ (run regDomReq ["-d"]).events := by
  have h := claim_C1_three_ordered_passes regDomReq ["-d"]
    { commands := markHandled regDomReq 1, current := some 1 } rfl
  obtain ⟨_, _, h3, _, h5⟩ := h
  obtain ⟨ho, he⟩ := h3 (by decide) (0, "r") (by decide)
  exact ⟨ho, he, h5 1 (by decide)⟩

/-- C3: the code's actual behavior on a non-required boolean `-f`
registered with default `false`: running `["-f"]` leaves
`get<bool>("f")` at `false` (the non-required empty-bucket short-circuit
in `CmdArgument::parse` returns before the boolean conversion can
toggle), running without `-f` also yields `false`, while the boolean
conversion itself — had it been called on the empty bucket — would have
produced `true`. -/
theorem claim_C3_code_behavior :
    (run regBoolF ["-f"]).outcome = .ok true ∧
    getValue (run regBoolF ["-f"]).commands .tBool "f" = .ok (.vBool false) ∧
    getValue (run regBoolF []).commands .tBool "f" = .ok (.vBool false) ∧
    parseBoolElems [] false = .ok true := by
  exact ⟨by decide, by decide, by decide, by decide⟩

/-- C4 counterexample: a callback parameter whose callback runs to
completion and reports failure (a bool-valued callback returning
`false`); `parse` nevertheless returns success, storing the value. -/
theorem claim_C4_counterexample :
    (CmdBase.parse cbFalseCmd).1 = true ∧
    (CmdBase.parse cbFalseCmd).2.storedValue = some (.vBool false) :=
  ⟨rfl, rfl⟩

/-- C4 amended: for every callback parameter, `parse` returns success iff
the callback returns normally (its returned value, even a `false`
boolean, is stored as the typed value); `parse` returns failure only
when the callback throws, in which case the stored value is kept. -/
theorem claim_C4_amended (c : CmdBase) (cb : List String → Except String Value)
    (v : Option Value) (hk : c.kind = .function cb v) :
    (∀ w, cb c.arguments = .ok w →
      c.parse = (true, { c with kind := .function cb (some w) })) ∧
    (∀ e, cb c.arguments = .error e →
      c.parse = (false, { c with kind := .function cb v })) := by
  constructor
  · intro w hw
    simp [CmdBase.parse, hk, cmdFunctionParse, hw]
  · intro e he
    simp [CmdBase.parse, hk, cmdFunctionParse, he]

/-- C4 witness: the amended statement applied to the concrete
false-returning callback descriptor. -/
theorem claim_C4_witness :
    CmdBase.parse cbFalseCmd =
      (true, { cbFalseCmd with
        kind := .function (fun _ => .ok (.vBool false)) (some (.vBool false)) }) :=
  (claim_C4_amended cbFalseCmd (fun _ => .ok (.vBool false)) none rfl).1 (.vBool false) rfl

/-- C10: `stringify (parse [s])` equals `s` for the canonical decimal
literal of every `int` value and for every string whatsoever. -/
theorem claim_C10_roundtrip (n : Int) (s : String)
    (h1 : intMin ≤ n) (h2 : n ≤ intMax) :
    (parseIntElems [intToString n] 0).map stringifyInt = .ok (intToString n) ∧
    (parseStringElems [s]).map stringifyStr = .ok s := by
  constructor
  · have h := stoi_intToString n h1 h2
    simp only [parseIntElems, h]
    rfl
  · rfl

/-- C10 witness: the round-trip at `-42` and `"hello"`. -/
theorem claim_C10_witness :
    (parseIntElems [intToString (-42)] 0).map stringifyInt = .ok (intToString (-42)) ∧
    (parseStringElems ["hello"]).map stringifyStr = .ok "hello" :=
  claim_C10_roundtrip (-42) "hello" (by decide) (by decide)

theorem valueAt_of_get? (l : List CmdBase) (i : Nat) (c : CmdBase)
    (h : l.get? i = some c) : valueAt l i = c.storedValue := by
  rw [valueAt, h]
  rfl

/-- A descriptor that is unhandled after tokenization, or whose `parse`
is the identity success, keeps its stored value across the whole of
`run`. -/
theorem run_value_frame (commands : List CmdBase) (arguments : List String)
    (st : TokState) (i : Nat) (c : CmdBase)
    (htok : tokenize { commands := commands, current := findDefaultIdx commands }
      arguments = .next st)
    (hc : st.commands.get? i = some c)
    (hfr : c.handled = false ∨ c.parse = (true, c)) :
    valueAt (run commands arguments).commands i = valueAt commands i := by
  have hfd : (fun c : CmdBase => c.handled && c.dominant) c = false ∨ c.parse = (true, c) := by
    rcases hfr with h | h
    · exact .inl (by simp [h])
    · exact .inr h
  have hfn : (fun c : CmdBase => c.handled && !c.dominant) c = false ∨ c.parse = (true, c) := by
    rcases hfr with h | h
    · exact .inl (by simp [h])
    · exact .inr h
  obtain ⟨hlen, _, _, rel⟩ := tokenize_next_rel arguments _ st htok
  dsimp only at hlen
  -- the registered descriptor at index i
  cases hc0 : commands.get? i with
  | none =>
    have h1 : commands.length ≤ i := List.get?_eq_none.mp hc0
    have h2 : i < st.commands.length := by
      obtain ⟨hlt, _⟩ := List.get?_eq_some.mp hc
      exact hlt
    rw [hlen] at h2
    omega
  | some c0 =>
    obtain ⟨c1, hc1, m1, _, _⟩ := rel i c0 hc0
    rw [hc] at hc1
    injection hc1 with hc1
    subst hc1
    have hsv : c.storedValue = c0.storedValue := by
      have hkind := (onlyTokMut_fields m1).2.2.2.2.2.2.2
      rw [CmdBase.storedValue, CmdBase.storedValue, hkind]
    have hdomf : (dominantPass st.commands).commands.get? i = some c :=
      passLoop_frame _ _ st.commands 0 i c hc hfd
    have hnormf : (normalPass (dominantPass st.commands).commands).commands.get? i = some c :=
      passLoop_frame _ _ _ 0 i c hdomf hfn
    have hrun := run_next commands arguments st htok
    by_cases hs : (dominantPass st.commands).success
    · cases hrc : requiredCheck (dominantPass st.commands).commands with
      | some r =>
        rw [hrun, if_pos hs, hrc]
        dsimp only
        rw [valueAt_of_get? _ _ _ hdomf, valueAt_of_get? _ _ _ hc0, hsv]
      | none =>
        rw [hrun, if_pos hs, hrc]
        dsimp only
        rw [valueAt_of_get? _ _ _ hnormf, valueAt_of_get? _ _ _ hc0, hsv]
    · rw [hrun, if_neg hs]
      dsimp only
      rw [valueAt_of_get? _ _ _ hdomf, valueAt_of_get? _ _ _ hc0, hsv]

/-- C8: a non-required value parameter whose bucket is empty when `parse`
is called succeeds without any conversion (the descriptor is returned
unchanged, whatever its stored value — even one whose conversion of the
empty bucket would fail), and keeps its registered value across `run`;
likewise every descriptor that is not handled after tokenization keeps
its registered value across `run`. -/
theorem claim_C8_defaults_preserved :
    (∀ (c : CmdBase) (v : Value) (vf : Option (Value → Bool)),
      c.kind = .argument v vf → c.required = false → c.arguments = [] →
      c.parse = (true, c)) ∧
    (∀ (commands : List CmdBase) (arguments : List String) (st : TokState)
      (i : Nat) (c : CmdBase),
      tokenize { commands := commands, current := findDefaultIdx commands }
        arguments = .next st →
      st.commands.get? i = some c → c.handled = false →
      valueAt (run commands arguments).commands i = valueAt commands i) ∧
    (∀ (commands : List CmdBase) (arguments : List String) (st : TokState)
      (i : Nat) (c : CmdBase) (v : Value) (vf : Option (Value → Bool)),
      tokenize { commands := commands, current := findDefaultIdx commands }
        arguments = .next st →
      st.commands.get? i = some c → c.kind = .argument v vf →
      c.required = false → c.arguments = [] →
      valueAt (run commands arguments).commands i = valueAt commands i) := by
  refine ⟨parse_default_id, ?_, ?_⟩
  · intro commands arguments st i c htok hc hnh
    exact run_value_frame commands arguments st i c htok hc (.inl hnh)
  · intro commands arguments st i c v vf htok hc hk hreq hargs
    exact run_value_frame commands arguments st i c htok hc
      (.inr (parse_default_id c v vf hk hreq hargs))

/-- C8 witness: an optional integer `-k` with default `7` and no
arguments keeps its default through `run`, and the empty-bucket
short-circuit returns the descriptor unchanged. -/
theorem claim_C8_witness :
    valueAt (run regIntK []).commands 0 = valueAt regIntK 0 ∧
    valueAt regIntK 0 = some (.vInt 7) ∧
    CmdBase.parse (makeCommand "k" "num" "" false false false (.argument (.vInt 7) none)) =
      (true, makeCommand "k" "num" "" false false false (.argument (.vInt 7) none)) := by
  refine ⟨?_, by decide, ?_⟩
  · exact claim_C8_defaults_preserved.2.1 regIntK []
      { commands := regIntK, current := findDefaultIdx regIntK } 0
      (makeCommand "k" "num" "" false false false (.argument (.vInt 7) none)) rfl rfl rfl
  · exact claim_C8_defaults_preserved.1
      (makeCommand "k" "num" "" false false false (.argument (.vInt 7) none))
      (.vInt 7) none rfl rfl rfl

/-- C7 counterexample: the default descriptor is registered required
(boolean, default `false`); its (nonexistent) flags never appear in
`["-n", "v"]` — `-n` resolves to descriptor 1 and `v` is not
flag-shaped — and no token is routed to it (its bucket stays empty), yet
`run` returns `true`: the cursor reversion marked it handled, so the
required check passed and the boolean toggle then parsed the empty
bucket. -/
theorem claim_C7_counterexample :
    (run regReqDefN ["-n", "v"]).outcome = .ok true ∧
    requiredAt regReqDefN 0 = some true ∧
    argsAt (run regReqDefN ["-n", "v"]).commands 0 = some [] ∧
    findCmdIdx regReqDefN "-n" = some 1 ∧
    isFlagToken "v" = false ∧
    getValue (run regReqDefN ["-n", "v"]).commands .tBool "" = .ok (.vBool true) := by
  exact ⟨by decide, by decide, by decide, by decide, by decide, by decide⟩

/-- C7 amended: if after tokenization some descriptor is still required
and unhandled and the dominant pass succeeds, `run` returns `false` in
the required-check pass with a `MissingRequiredParameter` diagnostic
naming the first such descriptor. (A required descriptor whose flags
never appear can nevertheless be marked handled when it is the default
descriptor and the cursor reverts to it, in which case the check does
not fire — see the counterexample.) -/
theorem claim_C7_amended (commands : List CmdBase) (arguments : List String)
    (st : TokState)
    (htok : tokenize { commands := commands, current := findDefaultIdx commands }
      arguments = .next st)
    (hdom : (dominantPass st.commands).success = true)
    (i : Nat) (c : CmdBase)
    (hget : st.commands.get? i = some c)
    (hreq : c.required = true) (hnh : c.handled = false) :
    (run commands arguments).outcome = .ok false ∧
    ∃ r, requiredCheck (dominantPass st.commands).commands = some r ∧
      (run commands arguments).events =
        (dominantPass st.commands).events ++ [.missingRequired r.1 r.2] ∧
      ∃ c', (dominantPass st.commands).commands.get? r.1 = some c' ∧
        c'.required = true ∧ c'.handled = false ∧ r.2 = c'.name := by
  obtain ⟨c2, hc2, _, hreq2, hh2, _, _, _⟩ :=
    passLoop_preserves (fun c => c.handled && c.dominant) Event.dominantFail
      st.commands 0 i c hget
  obtain ⟨r, hr, spec⟩ := requiredCheck_spec (dominantPass st.commands).commands i c2 hc2
    (by rw [hreq2, hreq]) (by rw [hh2, hnh])
  have hrun := run_next commands arguments st htok
  rw [hrun, if_pos hdom, hr]
  exact ⟨rfl, r, rfl, rfl, spec⟩

/-- C7 witness: a lone required `-r` with an empty argument vector fails
in the required check. -/
theorem claim_C7_witness :
    (run regReqOnly []).outcome = .ok false ∧
    ∃ r, requiredCheck (dominantPass regReqOnly).commands = some r ∧
      (run regReqOnly []).events =
        (dominantPass regReqOnly).events ++ [.missingRequired r.1 r.2] ∧
      ∃ c', (dominantPass regReqOnly).commands.get? r.1 = some c' ∧
        c'.required = true ∧ c'.handled = false ∧ r.2 = c'.name :=
  claim_C7_amended regReqOnly [] { commands := regReqOnly, current := findDefaultIdx regReqOnly }
    rfl (by decide) 0
    (makeCommand "r" "req" "" true false false (.argument (.vStr "") none)) rfl rfl rfl

/-- C5 counterexample: on the registry [default, `-n`] (both string
typed) with input `["-n", "v"]`, the default descriptor (index 0) ends
tokenization handled although no token was routed to it (its bucket is
empty) and no token matched its flags (`-n` resolves to descriptor 1,
`v` is not flag-shaped): the cursor reversion marked it. -/
theorem claim_C5_counterexample :
    tokenize { commands := regDefN, current := findDefaultIdx regDefN } ["-n", "v"] =
      .next { commands := tokDefNv, current := some 0 } ∧
    handledAt tokDefNv 0 = some true ∧
    argsAt tokDefNv 0 = some [] ∧
    handledAt regDefN 0 = some false ∧
    isFlagToken "v" = false ∧
    findCmdIdx regDefN "-n" = some 1 := by
  exact ⟨rfl, by decide, by decide, by decide, by decide, by decide⟩

/-- C5 amended: after tokenization a descriptor is handled if its flag
matched a token, or a token was routed to it (its bucket changed), or it
is the registry's default descriptor (marked by the cursor reversion);
conversely a matched flag always leaves it handled, and a descriptor
that ends tokenization unhandled was never routed anything. -/
theorem claim_C5_amended (commands : List CmdBase) (toks : List String) (st' : TokState)
    (htok : tokenize { commands := commands, current := findDefaultIdx commands }
      toks = .next st')
    (i : Nat) (c c' : CmdBase)
    (hc : commands.get? i = some c) (hc' : st'.commands.get? i = some c') :
    (c'.handled = true →
      c.handled = true ∨ (∃ tok ∈ toks, FlagMatches commands tok i) ∨
      c'.arguments ≠ c.arguments ∨ findDefaultIdx commands = some i) ∧
    ((∃ tok ∈ toks, FlagMatches commands tok i) → c'.handled = true) ∧
    (c'.handled = false → c'.arguments = c.arguments ∧ c.handled = false) := by
  refine ⟨?_, ?_, ?_⟩
  · intro hh
    exact tokenize_handled_origin toks
      { commands := commands, current := findDefaultIdx commands } st' htok i c c' hc hc' hh
  · rintro ⟨tok, hmem, hm⟩
    obtain ⟨c2, hc2, hh2⟩ := tokenize_flagmatch_handled toks
      { commands := commands, current := findDefaultIdx commands } st' htok tok hmem i hm
    rw [hc'] at hc2
    injection hc2 with hc2
    subst hc2
    exact hh2
  · intro hnh
    exact tokenize_nothandled_args toks
      { commands := commands, current := findDefaultIdx commands } st' htok
      (cursorOk_init commands) i c c' hc hc' hnh

/-- C5 witness: the flag `-n` occurring in the input leaves descriptor 1
handled after tokenizing `["-n", "v"]` over the [default, `-n`]
registry. -/
theorem claim_C5_witness :
    ({ makeCommand "n" "num" "" false false false (.argument (.vStr "") none) with
      handled := true, arguments := ["v"] } : CmdBase).handled = true := by
  exact (claim_C5_amended regDefN ["-n", "v"] { commands := tokDefNv, current := some 0 }
    rfl 1
    (makeCommand "n" "num" "" false false false (.argument (.vStr "") none))
    ({ makeCommand "n" "num" "" false false false (.argument (.vStr "") none) with
      handled := true, arguments := ["v"] })
    rfl rfl).2.1 ⟨"-n", by simp, by decide, by decide⟩

/-- C6 counterexample: the unmatched flag-shaped token `-x`, arriving
while the cursor is the non-variadic `-n` descriptor with an empty
bucket, is stored as `-n`'s value argument; `run` succeeds with no
`UnrecognizedParameter` diagnostic. -/
theorem claim_C6_counterexample :
    (run regDefN ["-n", "-x"]).outcome = .ok true ∧
    argsAt (run regDefN ["-n", "-x"]).commands 1 = some ["-x"] ∧
    (run regDefN ["-n", "-x"]).events =
      [.parseCalled 0 true, .validateCalled 0 true,
        .parseCalled 1 true, .validateCalled 1 true] ∧
    isFlagToken "-x" = true ∧
    findCmdIdx regDefN "-x" = none ∧
    getValue (run regDefN ["-n", "-x"]).commands .tStr "n" = .ok (.vStr "-x") := by
  exact ⟨by decide, by decide, by decide, by decide, by decide, by decide⟩

/-- C6 amended: an unmatched flag-shaped token at a non-variadic cursor
descriptor is rejected with `UnrecognizedParameter` only when the bucket
already holds a value (aborting `run`); with an empty bucket the token
is stored as the value argument and the cursor reverts to the default
descriptor (crashing on a null `find_default`). -/
theorem claim_C6_amended (commands : List CmdBase) (pre : List String) (tok : String)
    (rest : List String) (st : TokState) (i : Nat) (c : CmdBase)
    (hpre : tokenize { commands := commands, current := findDefaultIdx commands }
      pre = .next st)
    (hcur : st.current = some i)
    (hc : st.commands.get? i = some c)
    (hnv : c.variadic = false)
    (hfl : isFlagToken tok = true)
    (hnomatch : findCmdIdx st.commands tok = none) :
    (c.arguments ≠ [] →
      tokenize { commands := commands, current := findDefaultIdx commands }
        (pre ++ tok :: rest) = .fail (.invalidParameter tok) st.commands ∧
      (run commands (pre ++ tok :: rest)).outcome = .ok false ∧
      (run commands (pre ++ tok :: rest)).events = [.invalidParameter tok]) ∧
    (c.arguments = [] →
      argsAt (pushArg st.commands i tok) i = some (c.arguments ++ [tok]) ∧
      tokenizeStep st tok =
        (match findDefaultIdx (pushArg st.commands i tok) with
          | some d => .next { commands := markHandled (pushArg st.commands i tok) d,
                              current := some d }
          | none => .crash (pushArg st.commands i tok))) := by
  constructor
  · intro hne
    have hcg : st.commands[i]? = some c := by
      rw [← List.get?_eq_getElem?]
      exact hc
    have hstep : tokenizeStep st tok = .fail (.invalidParameter tok) st.commands := by
      simp [tokenizeStep, hfl, hnomatch, hcur, hcg, hnv, hne]
    have htd := tokenize_append
      { commands := commands, current := findDefaultIdx commands } pre (tok :: rest)
    rw [hpre] at htd
    have hfull : tokenize { commands := commands, current := findDefaultIdx commands }
        (pre ++ tok :: rest) = .fail (.invalidParameter tok) st.commands := by
      rw [htd]
      simp only [tokenize]
      rw [hstep]
    have hrun := run_fail commands (pre ++ tok :: rest) _ _ hfull
    exact ⟨hfull, by rw [hrun], by rw [hrun]⟩
  · intro hemp
    constructor
    · rw [argsAt, pushArg, get?_updateAt_self, hc]
      rfl
    · have hcg : st.commands[i]? = some c := by
        rw [← List.get?_eq_getElem?]
        exact hc
      cases hd : findDefaultIdx (pushArg st.commands i tok) with
      | some d =>
        simp [tokenizeStep, hfl, hnomatch, hcur, hcg, hnv, hemp, hd]
      | none =>
        simp [tokenizeStep, hfl, hnomatch, hcur, hcg, hnv, hemp, hd]

/-- C6 witness: with the default's bucket already holding `p1`, the
unmatched flag-shaped `-x` aborts `run` with the invalid-parameter
diagnostic. -/
theorem claim_C6_witness :
    (run regDefN ["p1", "-x"]).outcome = .ok false ∧
    (run regDefN ["p1", "-x"]).events = [.invalidParameter "-x"] := by
  have h := (claim_C6_amended regDefN ["p1"] "-x" []
    { commands := markHandled (pushArg regDefN 0 "p1") 0, current := some 0 } 0
    ({ makeCommand "" "" "" false false false (.argument (.vStr "") none) with
      handled := true, arguments := ["p1"] })
    rfl rfl rfl rfl (by decide) (by decide)).1 (by simp)
  exact ⟨h.2.1, h.2.2⟩

/-- C9 counterexample: `-x` is registered at type `NumericalBase<int,16>`
(the registry also holds a string default so that the accepted value's
cursor reversion has a default to mark); running `["-x", "1A"]` succeeds
but `get<int>("x")` fails with `TypeMismatch` — the
`dynamic_cast<CmdArgument<int>*>` yields null because the stored type is
the wrapper — instead of returning 26. -/
theorem claim_C9_counterexample :
    (run regHexX ["-x", "1A"]).outcome = .ok true ∧
    getValue (run regHexX ["-x", "1A"]).commands .tInt "x" = .error (.typeMismatch "x") := by
  exact ⟨by decide, by decide⟩

/-- C9 amended: running `["-x", "1A"]` makes `get` at the declared
wrapper type `NumericalBase<int,16>` return the value 26 (with its base
field 16); the wrapper's stored base is passed through to the integer
conversion, and base 0 auto-detects from the literal's prefix: a
`0x`-prefixed hexadecimal literal parses as with base 16, and a leading
`0` selects octal (`"012"` parses to 10). -/
theorem claim_C9_amended (cs : List Char) (hne : cs ≠ [])
    (hhex : ∀ c ∈ cs, isBaseDigit 16 c = true) :
    getValue (run regHexX ["-x", "1A"]).commands (.tNumBase 16) "x" =
      .ok (.vNumBase 26 16) ∧
    (∀ (elements : List String) (n : Int) (base : Nat),
      convertValue elements (.vNumBase n base) =
        (parseIntElems elements base).map (fun m => Value.vNumBase m base)) ∧
    stoi "1A" 16 = .ok 26 ∧
    stoiCore ('0' :: 'x' :: cs) 0 = stoiCore cs 16 ∧
    stoi "012" 0 = .ok 10 := by
  refine ⟨by decide, fun _ _ _ => rfl, by decide, ?_, by decide⟩
  cases cs with
  | nil => exact absurd rfl hne
  | cons c0 rest =>
    have h0 : isBaseDigit 16 c0 = true := hhex c0 (by simp)
    obtain ⟨hsp0, hm0, hp0, _, _⟩ := hexDigitFacts c0 h0
    have hdropL : ('0' :: 'x' :: c0 :: rest).dropWhile isSpaceChar =
        '0' :: 'x' :: c0 :: rest := by
      rw [List.dropWhile_cons]
      simp [isSpaceChar]
    have hsignL : stoiSign ('0' :: 'x' :: c0 :: rest) = (1, '0' :: 'x' :: c0 :: rest) := by
      simp [stoiSign]
    have hbaseL : stoiBase 0 ('0' :: 'x' :: c0 :: rest) = (16, c0 :: rest) := by
      simp [stoiBase, hexStart, h0]
    have hdropR : (c0 :: rest).dropWhile isSpaceChar = c0 :: rest := by
      rw [List.dropWhile_cons, hsp0]
      simp
    have hsignR : stoiSign (c0 :: rest) = (1, c0 :: rest) := by
      simp [stoiSign, hm0, hp0]
    have hhexR : hexStart (c0 :: rest) = false := by
      cases rest with
      | nil => rfl
      | cons c1 rest2 =>
        cases rest2 with
        | nil => rfl
        | cons c2 rest3 =>
          obtain ⟨_, _, _, hx1, hX1⟩ := hexDigitFacts c1 (hhex c1 (by simp))
          simp [hexStart, hx1, hX1]
    have hbaseR : stoiBase 16 (c0 :: rest) = (16, c0 :: rest) := by
      simp [stoiBase, hhexR]
    simp only [stoiCore, hdropL, hsignL, hbaseL, hdropR, hsignR, hbaseR]

/-- C9 witness: the hex auto-detect equivalence applied to the digit
string `1A`. -/
theorem claim_C9_witness :
    getValue (run regHexX ["-x", "1A"]).commands (.tNumBase 16) "x" =
      .ok (.vNumBase 26 16) ∧
    stoiCore ('0' :: 'x' :: ['1', 'A']) 0 = stoiCore ['1', 'A'] 16 := by
  have h := claim_C9_amended ['1', 'A'] (by decide) (by decide)
  exact ⟨h.1, h.2.2.2.1⟩

/-- C2 counterexample: with a non-variadic (string) default descriptor,
running `["-n", "v", "p1", "p2"]` does not route `p1` and `p2` to the
default — `p2` triggers the "can have only one parameter" failure and
`run` returns false. -/
theorem claim_C2_counterexample :
    (run regDefN ["-n", "v", "p1", "p2"]).outcome = .ok false ∧
    (run regDefN ["-n", "v", "p1", "p2"]).events = [.tooManyArguments 0 "p2"] := by
  exact ⟨by decide, by decide⟩

/-- C2 amended: a non-variadic named descriptor accepts exactly one
value token, after which the cursor reverts to the default descriptor;
for every registry whose default descriptor is variadic, running
`[-n, v, p1, p2]` routes `v` to `-n`'s collected arguments and `p1`,
`p2` to the default descriptor. -/
theorem claim_C2_amended (commands : List CmdBase) (flagTok v p1 p2 : String)
    (i d : Nat) (cN cD : CmdBase)
    (hfl : isFlagToken flagTok = true)
    (hfind : findCmdIdx commands flagTok = some i)
    (hcN : commands.get? i = some cN)
    (hNv : cN.variadic = false)
    (hNargs : cN.arguments = [])
    (hdef : findDefaultIdx commands = some d)
    (hcD : commands.get? d = some cD)
    (hDv : cD.variadic = true)
    (hdi : d ≠ i)
    (hv : isFlagToken v = false)
    (hp1 : isFlagToken p1 = false)
    (hp2 : isFlagToken p2 = false) :
    ∃ st', tokenize { commands := commands, current := findDefaultIdx commands }
        [flagTok, v, p1, p2] = .next st' ∧
      st'.commands.get? i = some { cN with handled := true, arguments := [v] } ∧
      st'.commands.get? d =
        some { cD with handled := true, arguments := cD.arguments ++ [p1, p2] } := by
  -- step 1: the flag token switches the cursor to descriptor i
  have e1 : tokenizeStep { commands := commands, current := findDefaultIdx commands }
      flagTok = .next { commands := markHandled commands i, current := some i } := by
    simp [tokenizeStep, hfl, hfind]
  -- step 2: i accepts its single value and the cursor reverts to d
  have hgi1 : (markHandled commands i).get? i = some { cN with handled := true } := by
    rw [markHandled, get?_updateAt_self, hcN]
    rfl
  have hgi1g : (markHandled commands i)[i]? = some { cN with handled := true } := by
    rw [← List.get?_eq_getElem?]
    exact hgi1
  have e2 : tokenizeStep { commands := markHandled commands i, current := some i } v =
      .next ⟨markHandled (pushArg (markHandled commands i) i v) d, some d⟩ := by
    simp [tokenizeStep, hv, hgi1g, hNv, hNargs, findDefaultIdx_pushArg,
      findDefaultIdx_markHandled, hdef]
  -- step 3: p1 is routed to the (variadic) default descriptor
  have h1 : (markHandled commands i).get? d = some cD := by
    rw [markHandled, get?_updateAt_ne _ _ _ _ (Ne.symm hdi)]
    exact hcD
  have h2 : (pushArg (markHandled commands i) i v).get? d = some cD := by
    rw [pushArg, get?_updateAt_ne _ _ _ _ (Ne.symm hdi)]
    exact h1
  have hgd : (markHandled (pushArg (markHandled commands i) i v) d).get? d =
      some { cD with handled := true } := by
    rw [markHandled, get?_updateAt_self, h2]
    rfl
  have hgdg : (markHandled (pushArg (markHandled commands i) i v) d)[d]? =
      some { cD with handled := true } := by
    rw [← List.get?_eq_getElem?]
    exact hgd
  have e3 : tokenizeStep
      ⟨markHandled (pushArg (markHandled commands i) i v) d, some d⟩ p1 =
      .next ⟨markHandled (pushArg
        (markHandled (pushArg (markHandled commands i) i v) d) d p1) d, some d⟩ := by
    simp [tokenizeStep, hp1, hgdg, hDv]
  -- step 4: p2 is routed to the default descriptor as well
  have h3 : (pushArg (markHandled (pushArg (markHandled commands i) i v) d) d p1).get? d =
      some { cD with handled := true, arguments := cD.arguments ++ [p1] } := by
    rw [pushArg, get?_updateAt_self, hgd]
    rfl
  have hgd3 : (markHandled (pushArg
      (markHandled (pushArg (markHandled commands i) i v) d) d p1) d).get? d =
      some { cD with handled := true, arguments := cD.arguments ++ [p1] } := by
    rw [markHandled, get?_updateAt_self, h3]
    rfl
  have hgd3g : (markHandled (pushArg
      (markHandled (pushArg (markHandled commands i) i v) d) d p1) d)[d]? =
      some { cD with handled := true, arguments := cD.arguments ++ [p1] } := by
    rw [← List.get?_eq_getElem?]
    exact hgd3
  have e4 : tokenizeStep ⟨markHandled (pushArg
      (markHandled (pushArg (markHandled commands i) i v) d) d p1) d, some d⟩ p2 =
      .next ⟨markHandled (pushArg (markHandled (pushArg
        (markHandled (pushArg (markHandled commands i) i v) d) d p1) d) d p2) d,
        some d⟩ := by
    simp [tokenizeStep, hp2, hgd3g, hDv]
  refine ⟨⟨markHandled (pushArg (markHandled (pushArg
      (markHandled (pushArg (markHandled commands i) i v) d) d p1) d) d p2) d,
      some d⟩, ?_, ?_, ?_⟩
  · simp only [tokenize, e1, e2, e3, e4]
  · -- descriptor i: only the pushArg at step 2 touched it
    have f1 : (pushArg (markHandled commands i) i v).get? i =
        some { cN with handled := true, arguments := cN.arguments ++ [v] } := by
      rw [pushArg, get?_updateAt_self, hgi1]
      rfl
    have f2 : (markHandled (pushArg (markHandled commands i) i v) d).get? i =
        some { cN with handled := true, arguments := cN.arguments ++ [v] } := by
      rw [markHandled, get?_updateAt_ne _ _ _ _ hdi]
      exact f1
    have f3 : (pushArg (markHandled (pushArg (markHandled commands i) i v) d) d p1).get? i =
        some { cN with handled := true, arguments := cN.arguments ++ [v] } := by
      rw [pushArg, get?_updateAt_ne _ _ _ _ hdi]
      exact f2
    have f4 : (markHandled (pushArg
        (markHandled (pushArg (markHandled commands i) i v) d) d p1) d).get? i =
        some { cN with handled := true, arguments := cN.arguments ++ [v] } := by
      rw [markHandled, get?_updateAt_ne _ _ _ _ hdi]
      exact f3
    have f5 : (pushArg (markHandled (pushArg
        (markHandled (pushArg (markHandled commands i) i v) d) d p1) d) d p2).get? i =
        some { cN with handled := true, arguments := cN.arguments ++ [v] } := by
      rw [pushArg, get?_updateAt_ne _ _ _ _ hdi]
      exact f4
    have f6 : (markHandled (pushArg (markHandled (pushArg
        (markHandled (pushArg (markHandled commands i) i v) d) d p1) d) d p2) d).get? i =
        some { cN with handled := true, arguments := cN.arguments ++ [v] } := by
      rw [markHandled, get?_updateAt_ne _ _ _ _ hdi]
      exact f5
    rw [show ((⟨markHandled (pushArg (markHandled (pushArg
        (markHandled (pushArg (markHandled commands i) i v) d) d p1) d) d p2) d,
        some d⟩ : TokState)).commands = markHandled (pushArg (markHandled (pushArg
        (markHandled (pushArg (markHandled commands i) i v) d) d p1) d) d p2) d from rfl, f6,
      hNargs]
    rfl
  · -- descriptor d: p1 and p2 accumulated after step 4
    have g1 : (pushArg (markHandled (pushArg
        (markHandled (pushArg (markHandled commands i) i v) d) d p1) d) d p2).get? d =
        some { cD with handled := true, arguments := (cD.arguments ++ [p1]) ++ [p2] } := by
      rw [pushArg, get?_updateAt_self, hgd3]
      rfl
    have g2 : (markHandled (pushArg (markHandled (pushArg
        (markHandled (pushArg (markHandled commands i) i v) d) d p1) d) d p2) d).get? d =
        some { cD with handled := true, arguments := (cD.arguments ++ [p1]) ++ [p2] } := by
      rw [markHandled, get?_updateAt_self, g1]
      rfl
    rw [show ((⟨markHandled (pushArg (markHandled (pushArg
        (markHandled (pushArg (markHandled commands i) i v) d) d p1) d) d p2) d,
        some d⟩ : TokState)).commands = markHandled (pushArg (markHandled (pushArg
        (markHandled (pushArg (markHandled commands i) i v) d) d p1) d) d p2) d from rfl, g2,
      List.append_assoc]
    rfl

/-- C2 witness: the amended routing on the registry with a variadic
(vector-of-strings) default and a non-variadic `-n`. -/
theorem claim_C2_witness :
    ∃ st', tokenize { commands := regVarDefN, current := findDefaultIdx regVarDefN }
        ["-n", "v", "p1", "p2"] = .next st' ∧
      st'.commands.get? 1 = some { cmdN with handled := true, arguments := ["v"] } ∧
      st'.commands.get? 0 =
        some { cmdVD with handled := true, arguments := cmdVD.arguments ++ ["p1", "p2"] } :=
  claim_C2_amended regVarDefN "-n" "v" "p1" "p2" 1 0 cmdN cmdVD
    (by decide) rfl rfl rfl rfl rfl rfl rfl (by decide) (by decide) (by decide) (by decide)

end CmdParser
